import Mathlib

/-!
Verification development for the segmentation-free profiler in
bioimg/segfree/profile.py (class SegfreeProfiler and its helper functions).

Shallow embedding conventions:
* images are total functions from coordinates to integer pixel values together
  with explicit dimensions (numpy arrays of integer dtype);
* floating point frequencies are modelled as rationals (the counts divided by
  sizes computed by the code are exact rational values);
* a one-row pandas DataFrame (a histogram with labelled columns) is an ordered
  association list of (column, value) pairs;
* fallible code returns Except PyError, with one constructor per Python
  exception class that the modelled code paths can raise;
* the external sklearn estimators (KMeans, PCA) are deterministic seeded
  functions supplied as parameters (structure Ext); only the facts that they
  are functions of their arguments and that KMeans.predict yields a cluster
  index below n_clusters are used, the latter always as an explicit hypothesis.
-/

namespace Bioimg

/-- A greyscale (rank-2) image: height, width, and the pixel array. -/
structure Img2 where
  H : Nat
  W : Nat
  pix : Nat → Nat → Int

/-- A multichannel / volumetric (rank-3) image. -/
structure Img3 where
  H : Nat
  W : Nat
  C : Nat
  pix : Nat → Nat → Nat → Int

/-- The Python exceptions that the modelled code paths can raise.
notFittedError is the error class named by the specification for a
transform-before-fit call; the code never raises it. -/
inductive PyError where
  | typeError
  | valueError
  | attributeError
  | unboundLocalError
  | indexError
  | zeroDivisionError
  | notFittedError
  deriving DecidableEq, Repr

/-- An input array of arbitrary rank: rank 2 and 3 are represented exactly,
any other rank only by its rank (the code only ever inspects ndim on them
before failing). -/
inductive PyImg where
  | im2 (img : Img2)
  | im3 (img : Img3)
  | imOther (rank : Nat)

/-- ndim of an input array. -/
def PyImg.ndim : PyImg → Nat
  | .im2 _ => 2
  | .im3 _ => 3
  | .imOther r => r

/-- A rank-2 tile (block) cut out of a greyscale image. -/
structure Tile2 where
  th : Nat
  tw : Nat
  pix : Nat → Nat → Int

/-- A rank-3 tile cut out of a multichannel image. -/
structure Tile3 where
  th : Nat
  tw : Nat
  tc : Nat
  pix : Nat → Nat → Nat → Int

/-- List.mapM specialised to Except with the evaluation order of a Python
list comprehension: left to right, first exception propagates. -/
def mapE (f : α → Except PyError β) : List α → Except PyError (List β)
  | [] => .ok []
  | a :: as => (f a).bind fun b => (mapE f as).map fun bs => b :: bs

/-- skimage.util.view_as_blocks on a rank-2 array with block_shape (th, tw):
requires exact divisibility (otherwise ValueError) and returns the blocks;
the subsequent reshape(-1, th, tw) puts them in row-major grid order. -/
def viewAsBlocks2 (img : Img2) (th tw : Nat) : Except PyError (List Tile2) :=
  if th = 0 ∨ tw = 0 ∨ img.H % th ≠ 0 ∨ img.W % tw ≠ 0 then .error .valueError
  else
    .ok ((List.range (img.H / th * (img.W / tw))).map fun n =>
      { th := th, tw := tw,
        pix := fun r c =>
          img.pix (th * (n / (img.W / tw)) + r) (tw * (n % (img.W / tw)) + c) })

/-- skimage.util.view_as_blocks on a rank-3 array with block_shape
(th, tw, tc), followed by reshape(-1, th, tw, tc): blocks in row-major order
over the (height, width, channel) block grid. -/
def viewAsBlocks3 (img : Img3) (th tw tc : Nat) : Except PyError (List Tile3) :=
  if th = 0 ∨ tw = 0 ∨ tc = 0 ∨ img.H % th ≠ 0 ∨ img.W % tw ≠ 0 ∨ img.C % tc ≠ 0 then
    .error .valueError
  else
    .ok ((List.range (img.H / th * (img.W / tw * (img.C / tc)))).map fun n =>
      { th := th, tw := tw, tc := tc,
        pix := fun r c ch =>
          img.pix (th * (n / (img.W / tw * (img.C / tc))) + r)
            (tw * (n / (img.C / tc) % (img.W / tw)) + c)
            (tc * (n % (img.C / tc)) + ch) })

/-- tile_images restricted to a rank-2 batch (the imgs[0].ndim == 2 branch).
The clip amounts h % height and w % width are taken from the FIRST image's
shape and applied to every image of the batch; img[0:-r] keeps the first
(H - r) rows.  height = 0 or width = 0 makes h % height raise
ZeroDivisionError; an empty batch makes imgs[0] raise IndexError. -/
def tileImages2 (imgs : List Img2) (th tw : Nat) : Except PyError (List (List Tile2)) :=
  match imgs with
  | [] => .error .indexError
  | i0 :: _ =>
    if th = 0 ∨ tw = 0 then .error .zeroDivisionError
    else
      let imgs1 := if i0.H % th ≠ 0 then imgs.map (fun im => { im with H := im.H - i0.H % th }) else imgs
      let imgs2 := if i0.W % tw ≠ 0 then imgs1.map (fun im => { im with W := im.W - i0.W % tw }) else imgs1
      mapE (fun im => viewAsBlocks2 im th tw) imgs2

/-- tile_images restricted to a rank-3 batch (the imgs[0].ndim == 3 branch):
block_shape is (height, width, nchan) where nchan is the FIRST image's
channel count. -/
def tileImages3 (imgs : List Img3) (th tw : Nat) : Except PyError (List (List Tile3)) :=
  match imgs with
  | [] => .error .indexError
  | i0 :: _ =>
    if th = 0 ∨ tw = 0 then .error .zeroDivisionError
    else
      let imgs1 := if i0.H % th ≠ 0 then imgs.map (fun im => { im with H := im.H - i0.H % th }) else imgs
      let imgs2 := if i0.W % tw ≠ 0 then imgs1.map (fun im => { im with W := im.W - i0.W % tw }) else imgs1
      mapE (fun im => viewAsBlocks3 im th tw i0.C) imgs2

/-- Results of tile_images: a batch of per-image tile lists of the rank the
dispatch selected. -/
inductive TiledBatch where
  | t2 (tiles : List (List Tile2))
  | t3 (tiles : List (List Tile3))

/-- Coercion used when the first image of a batch is rank 2: a sibling of a
different rank makes view_as_blocks fail with ValueError. -/
def asImg2 : PyImg → Except PyError Img2
  | .im2 i => .ok i
  | _ => .error .valueError

/-- Coercion used when the first image of a batch is rank 3. -/
def asImg3 : PyImg → Except PyError Img3
  | .im3 i => .ok i
  | _ => .error .valueError

/-- tile_images(imgs, tile_size).  tile_size None fails unpacking (TypeError).
Dispatch is on imgs[0].ndim: the == 2 and == 3 checks select the branches;
only ndim > 3 reaches the explicit raise TypeError at the end, while
ndim < 2 leaves block_shape unassigned so line 49 raises UnboundLocalError. -/
def tile_images (imgs : List PyImg) (tileSize : Option (Nat × Nat)) :
    Except PyError TiledBatch :=
  match tileSize with
  | none => .error .typeError
  | some (th, tw) =>
    match imgs with
    | [] => .error .indexError
    | i0 :: _ =>
      match i0 with
      | .im2 _ => (mapE asImg2 imgs).bind fun is => (tileImages2 is th tw).map TiledBatch.t2
      | .im3 _ => (mapE asImg3 imgs).bind fun is => (tileImages3 is th tw).map TiledBatch.t3
      | .imOther r => if 3 < r then .error .typeError else .error .unboundLocalError

/-- A one-row DataFrame: an ordered association list from column labels to
rational values. -/
abbrev Hist (α : Type) := List (α × ℚ)

/-- Sorted insertion of a key, skipping keys already present. -/
def insertKey (x : Int) : List Int → List Int
  | [] => [x]
  | y :: ys => if x < y then x :: y :: ys else if x = y then y :: ys else y :: insertKey x ys

/-- np.unique: the distinct values of a list in ascending order. -/
def sortedKeys (l : List Int) : List Int := l.foldr insertKey []

/-- get_block_counts(a): occurrence frequency of each distinct element of the
flattened array, i.e. a one-row DataFrame whose columns are the sorted
distinct values and whose entries are count / a.size. -/
def get_block_counts (l : List Int) : Hist Int :=
  (sortedKeys l).map fun k => (k, (l.count k : ℚ) / l.length)

/-- Value of a one-row DataFrame at a column, 0 when the column is absent
(this is the value reindex-then-fillna(0) materialises). -/
def lookupQ : Hist Int → Int → ℚ
  | [], _ => 0
  | p :: t, c => if p.1 = c then p.2 else lookupQ t c

/-- df.reindex(columns=cols).fillna(0): the row re-expressed over exactly the
columns cols, keeping existing values and filling missing ones with 0. -/
def reindexFill (h : Hist Int) (cols : List Int) : Hist Int :=
  cols.map fun c => (c, lookupQ h c)

/-- df.reindex(columns=cols) where cols may be None (pandas treats
reindex(columns=None) as a no-op). -/
def reindexOpt (h : Hist Int) (cols : Option (List Int)) : Hist Int :=
  match cols with
  | none => h
  | some cs => reindexFill h cs

/-- Column labels 0, 1, ..., n-1 as produced by range(n). -/
def rangeInt (n : Nat) : List Int := (List.range n).map Int.ofNat

theorem insertKey_cons (x a : Int) (t : List Int) :
    insertKey x (a :: t) =
      if x < a then x :: a :: t else if x = a then a :: t else a :: insertKey x t := rfl

theorem mem_insertKey {y x : Int} {l : List Int} :
    y ∈ insertKey x l ↔ y = x ∨ y ∈ l := by
  induction l with
  | nil => simp [insertKey]
  | cons a t ih =>
    rw [insertKey_cons]
    by_cases h1 : x < a
    · rw [if_pos h1]; simp
    · rw [if_neg h1]
      by_cases h2 : x = a
      · subst h2
        rw [if_pos rfl]
        simp only [List.mem_cons]
        tauto
      · rw [if_neg h2]
        simp only [List.mem_cons, ih]
        tauto

theorem insertKey_sorted {x : Int} {l : List Int} (h : l.Chain' (· < ·)) :
    (insertKey x l).Chain' (· < ·) := by
  induction l with
  | nil => simp [insertKey]
  | cons a t ih =>
    rw [insertKey_cons]
    by_cases h1 : x < a
    · rw [if_pos h1]
      exact List.chain'_cons.mpr ⟨h1, h⟩
    · rw [if_neg h1]
      by_cases h2 : x = a
      · rw [if_pos h2]; exact h
      · rw [if_neg h2]
        have ht : t.Chain' (· < ·) := h.tail
        have hx : a < x := by omega
        rw [List.chain'_cons']
        refine ⟨?_, ih ht⟩
        intro z hz
        cases t with
        | nil =>
          simp [insertKey] at hz
          omega
        | cons b t' =>
          have hab : a < b := (List.chain'_cons.mp h).1
          rw [insertKey_cons] at hz
          by_cases hb1 : x < b
          · rw [if_pos hb1] at hz; simp at hz; omega
          · rw [if_neg hb1] at hz
            by_cases hb2 : x = b
            · rw [if_pos hb2] at hz; simp at hz; omega
            · rw [if_neg hb2] at hz; simp at hz; omega

theorem mem_sortedKeys {y : Int} {l : List Int} :
    y ∈ sortedKeys l ↔ y ∈ l := by
  induction l with
  | nil => simp [sortedKeys]
  | cons a t ih => simp [sortedKeys, mem_insertKey] at ih ⊢; tauto

theorem sortedKeys_sorted (l : List Int) : (sortedKeys l).Chain' (· < ·) := by
  induction l with
  | nil => simp [sortedKeys]
  | cons a t ih => exact insertKey_sorted ih

theorem sortedKeys_nodup (l : List Int) : (sortedKeys l).Nodup := by
  have h := sortedKeys_sorted l
  rw [List.chain'_iff_pairwise] at h
  exact h.imp ne_of_lt

/-- Keys of get_block_counts are exactly the values occurring in the array. -/
theorem mem_keys_get_block_counts {y : Int} {l : List Int} :
    y ∈ (get_block_counts l).map Prod.fst ↔ y ∈ l := by
  simp [get_block_counts, List.map_map, Function.comp_def, mem_sortedKeys]

theorem keys_get_block_counts_nodup (l : List Int) :
    ((get_block_counts l).map Prod.fst).Nodup := by
  have : (get_block_counts l).map Prod.fst = sortedKeys l := by
    simp [get_block_counts, List.map_map, Function.comp_def]
  rw [this]; exact sortedKeys_nodup l

/-- Keys of a reindexed row are exactly the requested columns. -/
theorem keys_reindexFill (h : Hist Int) (cols : List Int) :
    (reindexFill h cols).map Prod.fst = cols := by
  simp [reindexFill, List.map_map, Function.comp_def]

theorem lookupQ_reindexFill {c : Int} {cols : List Int} (h : Hist Int)
    (hc : c ∈ cols) : lookupQ (reindexFill h cols) c = lookupQ h c := by
  induction cols with
  | nil => cases hc
  | cons a t ih =>
    by_cases hac : a = c
    · subst hac; simp [reindexFill, lookupQ]
    · have : c ∈ t := by cases hc with
        | head => exact absurd rfl hac
        | tail _ h => exact h
      simp only [reindexFill, List.map_cons, lookupQ, hac, if_false]
      exact ih this

/-- Rebuilding an association list from its own (duplicate-free) keys and its
own lookups gives it back. -/
theorem map_lookupQ_self (h : Hist Int) (hnd : (h.map Prod.fst).Nodup) :
    (h.map Prod.fst).map (fun c => (c, lookupQ h c)) = h := by
  induction h with
  | nil => rfl
  | cons p t ih =>
    have hnd2 : (p.1 :: t.map Prod.fst).Nodup := by simpa using hnd
    have hnd' : (t.map Prod.fst).Nodup := (List.nodup_cons.mp hnd2).2
    have hp : p.1 ∉ t.map Prod.fst := (List.nodup_cons.mp hnd2).1
    have head : lookupQ (p :: t) p.1 = p.2 := by simp [lookupQ]
    have step : (t.map Prod.fst).map (fun c => (c, lookupQ (p :: t) c)) =
        (t.map Prod.fst).map (fun c => (c, lookupQ t c)) := by
      apply List.map_congr_left
      intro c hc
      have hne : p.1 ≠ c := fun he => hp (he ▸ hc)
      simp [lookupQ, hne]
    calc (List.map Prod.fst (p :: t)).map (fun c => (c, lookupQ (p :: t) c))
        = (p.1, lookupQ (p :: t) p.1) :: (t.map Prod.fst).map (fun c => (c, lookupQ (p :: t) c)) := by
          rw [List.map_cons, List.map_cons]
      _ = (p.1, p.2) :: (t.map Prod.fst).map (fun c => (c, lookupQ t c)) := by rw [head, step]
      _ = p :: t := by rw [ih hnd']

/-- Claim C9: reindexing a histogram to a superset vocabulary (missing levels
filled with 0) and then reindexing back to the original support recovers
exactly the original histogram. -/
theorem c9_reindex_roundtrip (h : Hist Int) (cols : List Int)
    (hnd : (h.map Prod.fst).Nodup)
    (hsub : ∀ x ∈ h.map Prod.fst, x ∈ cols) :
    reindexFill (reindexFill h cols) (h.map Prod.fst) = h := by
  unfold reindexFill
  have step : (h.map Prod.fst).map (fun c => (c, lookupQ (reindexFill h cols) c)) =
      (h.map Prod.fst).map (fun c => (c, lookupQ h c)) := by
    apply List.map_congr_left
    intro c hc
    rw [lookupQ_reindexFill h (hsub c hc)]
  rw [show ((h.map Prod.fst).map fun c => (c, lookupQ (cols.map fun c => (c, lookupQ h c)) c)) =
      (h.map Prod.fst).map (fun c => (c, lookupQ (reindexFill h cols) c)) from rfl]
  rw [step, map_lookupQ_self h hnd]

/-- Witness for C9 at a concrete histogram and superset vocabulary. -/
theorem c9_reindex_roundtrip_witness :
    ((([((1 : Int), (1 : ℚ)/2), (3, 1/4)] : Hist Int).map Prod.fst).Nodup ∧
      ∀ x ∈ ([((1 : Int), (1 : ℚ)/2), (3, 1/4)] : Hist Int).map Prod.fst, x ∈ [(1 : Int), 2, 3]) ∧
    reindexFill (reindexFill [((1 : Int), (1 : ℚ)/2), (3, 1/4)] [1, 2, 3])
      (([((1 : Int), (1 : ℚ)/2), (3, 1/4)] : Hist Int).map Prod.fst) =
      [((1 : Int), (1 : ℚ)/2), (3, 1/4)] := by
  refine ⟨⟨by decide, by decide⟩, ?_⟩
  exact c9_reindex_roundtrip _ _ (by decide) (by decide)

theorem mapE_singleton (f : α → Except PyError β) (x : α) :
    mapE f [x] = (f x).map (fun b => [b]) := by
  cases h : f x <;> simp [mapE, h, Except.bind, Except.map]

theorem mapE_map (f : β → Except PyError γ) (g : α → β) (l : List α) :
    mapE f (l.map g) = mapE (fun a => f (g a)) l := by
  induction l with
  | nil => rfl
  | cons a t ih => simp [mapE, ih]

theorem mapE_congr {f g : α → Except PyError β} (l : List α) (h : ∀ a ∈ l, f a = g a) :
    mapE f l = mapE g l := by
  induction l with
  | nil => rfl
  | cons a t ih =>
    simp only [mapE, h a (List.mem_cons_self a t),
      ih (fun x hx => h x (List.mem_cons_of_mem a hx))]

theorem div_mod_of (th q r : Nat) (hth : 0 < th) (hr : r < th) :
    (th * q + r) / th = q ∧ (th * q + r) % th = r :=
  (Nat.div_mod_unique hth).mpr ⟨by omega, hr⟩

/-- Whatever the batch, tileImages2 clips every image by the FIRST image's
remainders (i0.H % th rows, i0.W % tw columns) and then cuts blocks. -/
theorem tileImages2_clip (i0 : Img2) (tl : List Img2) (th tw : Nat)
    (hth : 0 < th) (htw : 0 < tw) :
    tileImages2 (i0 :: tl) th tw =
      mapE (fun im => viewAsBlocks2 ⟨im.H - i0.H % th, im.W - i0.W % tw, im.pix⟩ th tw)
        (i0 :: tl) := by
  have hnz : ¬(th = 0 ∨ tw = 0) := by omega
  simp only [tileImages2]
  rw [if_neg hnz]
  by_cases h1 : i0.H % th ≠ 0 <;> by_cases h2 : i0.W % tw ≠ 0
  · rw [if_pos h1, if_pos h2, List.map_map, mapE_map]
    rfl
  · have h2' : i0.W % tw = 0 := by omega
    rw [if_pos h1, if_neg h2, mapE_map]
    apply mapE_congr
    intro a _
    rw [h2', Nat.sub_zero]
  · have h1' : i0.H % th = 0 := by omega
    rw [if_neg h1, if_pos h2, mapE_map]
    apply mapE_congr
    intro a _
    rw [h1', Nat.sub_zero]
  · have h1' : i0.H % th = 0 := by omega
    have h2' : i0.W % tw = 0 := by omega
    rw [if_neg h1, if_neg h2]
    apply mapE_congr
    intro a _
    rw [h1', h2', Nat.sub_zero, Nat.sub_zero]

theorem sub_mod_self_mod (a b : Nat) : (a - a % b) % b = 0 := by
  have h := Nat.div_add_mod a b
  have e : a - a % b = b * (a / b) := by omega
  rw [e, Nat.mul_mod_right]

theorem sub_mod_self_div (a b : Nat) (hb : 0 < b) : (a - a % b) / b = a / b := by
  have h := Nat.div_add_mod a b
  have e : a - a % b = b * (a / b) := by omega
  rw [e, Nat.mul_div_cancel_left _ hb]

/-- Distinct (tile index, in-tile offset) triples address distinct pixels:
the tiles of the grid are non-overlapping. -/
theorem tileIndex_inj (th tw gw n n' r r' c c' : Nat)
    (hr : r < th) (hr' : r' < th) (hc : c < tw) (hc' : c' < tw)
    (h1 : th * (n / gw) + r = th * (n' / gw) + r')
    (h2 : tw * (n % gw) + c = tw * (n' % gw) + c') :
    n = n' ∧ r = r' ∧ c = c' := by
  have hth : 0 < th := Nat.lt_of_le_of_lt (Nat.zero_le r) hr
  have htw : 0 < tw := Nat.lt_of_le_of_lt (Nat.zero_le c) hc
  have e1 := div_mod_of th (n / gw) r hth hr
  have e1' := div_mod_of th (n' / gw) r' hth hr'
  rw [h1] at e1
  have hq : n / gw = n' / gw := e1.1.symm.trans e1'.1
  have hrr : r = r' := e1.2.symm.trans e1'.2
  have e2 := div_mod_of tw (n % gw) c htw hc
  have e2' := div_mod_of tw (n' % gw) c' htw hc'
  rw [h2] at e2
  have hm : n % gw = n' % gw := e2.1.symm.trans e2'.1
  have hcc : c = c' := e2.2.symm.trans e2'.2
  refine ⟨?_, hrr, hcc⟩
  calc n = gw * (n / gw) + n % gw := (Nat.div_add_mod n gw).symm
    _ = gw * (n' / gw) + n' % gw := by rw [hq, hm]
    _ = n' := Nat.div_add_mod n' gw

/-- Statement of claim C4 for a rank-2 image: the Tiler succeeds, produces a
grid of floor(H/th) * floor(W/tw) tiles in row-major order, every tile pixel
is the corresponding pixel of the (clipped, never padded) image, every pixel
of the clipped image is covered by the expected tile, and distinct
(tile, offset) pairs hit distinct pixels (no overlap). -/
def C4Prop2 (img : Img2) (th tw : Nat) : Prop :=
  ∃ ts : List Tile2,
    tileImages2 [img] th tw = .ok [ts] ∧
    ts.length = img.H / th * (img.W / tw) ∧
    (∀ n : Nat, ∀ hn : n < ts.length, ∀ r c : Nat, r < th → c < tw →
      (ts.get ⟨n, hn⟩).pix r c =
        img.pix (th * (n / (img.W / tw)) + r) (tw * (n % (img.W / tw)) + c)) ∧
    (∀ y x : Nat, y < th * (img.H / th) → x < tw * (img.W / tw) →
      ∃ hn : y / th * (img.W / tw) + x / tw < ts.length,
        (ts.get ⟨y / th * (img.W / tw) + x / tw, hn⟩).pix (y % th) (x % tw) = img.pix y x) ∧
    (∀ n n' r r' c c' : Nat, r < th → r' < th → c < tw → c' < tw →
      th * (n / (img.W / tw)) + r = th * (n' / (img.W / tw)) + r' →
      tw * (n % (img.W / tw)) + c = tw * (n' % (img.W / tw)) + c' →
      n = n' ∧ r = r' ∧ c = c')

/-- Statement of claim C4 for a rank-3 image (block_shape keeps the full
channel depth, so the grid is the same floor(H/th) * floor(W/tw) and every
channel is carried along). -/
def C4Prop3 (img : Img3) (th tw : Nat) : Prop :=
  ∃ ts : List Tile3,
    tileImages3 [img] th tw = .ok [ts] ∧
    ts.length = img.H / th * (img.W / tw) ∧
    (∀ n : Nat, ∀ hn : n < ts.length, ∀ r c ch : Nat, r < th → c < tw →
      (ts.get ⟨n, hn⟩).pix r c ch =
        img.pix (th * (n / (img.W / tw)) + r) (tw * (n % (img.W / tw)) + c) ch) ∧
    (∀ y x ch : Nat, y < th * (img.H / th) → x < tw * (img.W / tw) →
      ∃ hn : y / th * (img.W / tw) + x / tw < ts.length,
        (ts.get ⟨y / th * (img.W / tw) + x / tw, hn⟩).pix (y % th) (x % tw) ch =
          img.pix y x ch)

theorem range_map_get {N n : Nat} (f : Nat → α) (hn : n < ((List.range N).map f).length) :
    ((List.range N).map f).get ⟨n, hn⟩ = f n := by
  rw [List.get_eq_getElem, List.getElem_map, List.getElem_range]

theorem tile_cover_index {th tw gh gw y x : Nat}
    (hy : y < th * gh) (hx : x < tw * gw) :
    y / th * gw + x / tw < gh * gw := by
  have hth : 0 < th := by
    rcases Nat.eq_zero_or_pos th with h | h
    · subst h; simp at hy
    · exact h
  have htw : 0 < tw := by
    rcases Nat.eq_zero_or_pos tw with h | h
    · subst h; simp at hx
    · exact h
  have hq : y / th < gh := by
    rw [Nat.div_lt_iff_lt_mul hth, Nat.mul_comm]
    exact hy
  have hj : x / tw < gw := by
    rw [Nat.div_lt_iff_lt_mul htw, Nat.mul_comm]
    exact hx
  calc y / th * gw + x / tw < y / th * gw + gw := by omega
    _ = (y / th + 1) * gw := by ring
    _ ≤ gh * gw := Nat.mul_le_mul_right _ (by omega)

theorem viewAsBlocks2_ok (img : Img2) (th tw : Nat)
    (hth : 0 < th) (htw : 0 < tw) (hh : img.H % th = 0) (hw : img.W % tw = 0) :
    viewAsBlocks2 img th tw =
      .ok ((List.range (img.H / th * (img.W / tw))).map fun n =>
        ⟨th, tw, fun r c =>
          img.pix (th * (n / (img.W / tw)) + r) (tw * (n % (img.W / tw)) + c)⟩) := by
  unfold viewAsBlocks2
  rw [if_neg (by omega)]

theorem viewAsBlocks3_ok (img : Img3) (th tw tc : Nat)
    (hth : 0 < th) (htw : 0 < tw) (htc : 0 < tc)
    (hh : img.H % th = 0) (hw : img.W % tw = 0) (hc : img.C % tc = 0) :
    viewAsBlocks3 img th tw tc =
      .ok ((List.range (img.H / th * (img.W / tw * (img.C / tc)))).map fun n =>
        ⟨th, tw, tc, fun r c ch =>
          img.pix (th * (n / (img.W / tw * (img.C / tc))) + r)
            (tw * (n / (img.C / tc) % (img.W / tw)) + c)
            (tc * (n % (img.C / tc)) + ch)⟩) := by
  unfold viewAsBlocks3
  rw [if_neg (by omega)]

theorem tileImages3_clip (i0 : Img3) (tl : List Img3) (th tw : Nat)
    (hth : 0 < th) (htw : 0 < tw) :
    tileImages3 (i0 :: tl) th tw =
      mapE (fun im =>
          viewAsBlocks3 ⟨im.H - i0.H % th, im.W - i0.W % tw, im.C, im.pix⟩ th tw i0.C)
        (i0 :: tl) := by
  have hnz : ¬(th = 0 ∨ tw = 0) := by omega
  simp only [tileImages3]
  rw [if_neg hnz]
  by_cases h1 : i0.H % th ≠ 0 <;> by_cases h2 : i0.W % tw ≠ 0
  · rw [if_pos h1, if_pos h2, List.map_map, mapE_map]
    rfl
  · have h2' : i0.W % tw = 0 := by omega
    rw [if_pos h1, if_neg h2, mapE_map]
    apply mapE_congr
    intro a _
    rw [h2', Nat.sub_zero]
  · have h1' : i0.H % th = 0 := by omega
    rw [if_neg h1, if_pos h2, mapE_map]
    apply mapE_congr
    intro a _
    rw [h1', Nat.sub_zero]
  · have h1' : i0.H % th = 0 := by omega
    have h2' : i0.W % tw = 0 := by omega
    rw [if_neg h1, if_neg h2]
    apply mapE_congr
    intro a _
    rw [h1', h2', Nat.sub_zero, Nat.sub_zero]

theorem tiler2_spec (img : Img2) (th tw : Nat)
    (hth : 0 < th) (htw : 0 < tw) (hH : th ≤ img.H) (hW : tw ≤ img.W) :
    C4Prop2 img th tw := by
  have e1 : (img.H - img.H % th) / th = img.H / th := sub_mod_self_div _ _ hth
  have e2 : (img.W - img.W % tw) / tw = img.W / tw := sub_mod_self_div _ _ htw
  have hsing : tileImages2 [img] th tw =
      (viewAsBlocks2 ⟨img.H - img.H % th, img.W - img.W % tw, img.pix⟩ th tw).map
        (fun ts => [ts]) := by
    rw [tileImages2_clip img [] th tw hth htw, mapE_singleton]
  have hvab := viewAsBlocks2_ok ⟨img.H - img.H % th, img.W - img.W % tw, img.pix⟩ th tw
    hth htw (sub_mod_self_mod _ _) (sub_mod_self_mod _ _)
  refine ⟨(List.range (img.H / th * (img.W / tw))).map fun n =>
    ⟨th, tw, fun r c =>
      img.pix (th * (n / (img.W / tw)) + r) (tw * (n % (img.W / tw)) + c)⟩, ?_, ?_, ?_, ?_, ?_⟩
  · rw [hsing, hvab]
    dsimp only
    simp only [e1, e2]
    rfl
  · simp
  · intro n hn r c _ _
    rw [range_map_get]
  · intro y x hy hx
    have hgw : 0 < img.W / tw := (Nat.one_le_div_iff htw).mpr hW
    have hj : x / tw < img.W / tw := by
      rw [Nat.div_lt_iff_lt_mul htw, Nat.mul_comm]
      exact hx
    have hb : y / th * (img.W / tw) + x / tw <
        ((List.range (img.H / th * (img.W / tw))).map fun n =>
          (⟨th, tw, fun r c =>
            img.pix (th * (n / (img.W / tw)) + r) (tw * (n % (img.W / tw)) + c)⟩ : Tile2)).length := by
      simp only [List.length_map, List.length_range]
      exact tile_cover_index hy hx
    refine ⟨hb, ?_⟩
    rw [range_map_get]
    have hrw : y / th * (img.W / tw) + x / tw = img.W / tw * (y / th) + x / tw := by ring
    have hdm := div_mod_of (img.W / tw) (y / th) (x / tw) hgw hj
    dsimp only
    rw [hrw, hdm.1, hdm.2, Nat.div_add_mod, Nat.div_add_mod]
  · intro n n' r r' c c' hr hr' hc hc' h1 h2
    exact tileIndex_inj th tw (img.W / tw) n n' r r' c c' hr hr' hc hc' h1 h2

theorem tiler3_spec (img : Img3) (th tw : Nat)
    (hth : 0 < th) (htw : 0 < tw) (hH : th ≤ img.H) (hW : tw ≤ img.W) (hC : 0 < img.C) :
    C4Prop3 img th tw := by
  have e1 : (img.H - img.H % th) / th = img.H / th := sub_mod_self_div _ _ hth
  have e2 : (img.W - img.W % tw) / tw = img.W / tw := sub_mod_self_div _ _ htw
  have hgc : img.C / img.C = 1 := Nat.div_self hC
  have hsing : tileImages3 [img] th tw =
      (viewAsBlocks3 ⟨img.H - img.H % th, img.W - img.W % tw, img.C, img.pix⟩ th tw img.C).map
        (fun ts => [ts]) := by
    rw [tileImages3_clip img [] th tw hth htw, mapE_singleton]
  have hvab := viewAsBlocks3_ok ⟨img.H - img.H % th, img.W - img.W % tw, img.C, img.pix⟩
    th tw img.C hth htw hC (sub_mod_self_mod _ _) (sub_mod_self_mod _ _) (Nat.mod_self _)
  refine ⟨(List.range (img.H / th * (img.W / tw))).map fun n =>
    ⟨th, tw, img.C, fun r c ch =>
      img.pix (th * (n / (img.W / tw)) + r) (tw * (n % (img.W / tw)) + c) ch⟩, ?_, ?_, ?_, ?_⟩
  · rw [hsing, hvab]
    dsimp only
    simp only [e1, e2, hgc, Nat.mul_one, Nat.div_one, Nat.mod_one, Nat.mul_zero, Nat.zero_add]
    rfl
  · simp
  · intro n hn r c ch _ _
    rw [range_map_get]
  · intro y x ch hy hx
    have hgw : 0 < img.W / tw := (Nat.one_le_div_iff htw).mpr hW
    have hj : x / tw < img.W / tw := by
      rw [Nat.div_lt_iff_lt_mul htw, Nat.mul_comm]
      exact hx
    have hb : y / th * (img.W / tw) + x / tw <
        ((List.range (img.H / th * (img.W / tw))).map fun n =>
          (⟨th, tw, img.C, fun r c ch =>
            img.pix (th * (n / (img.W / tw)) + r) (tw * (n % (img.W / tw)) + c) ch⟩ : Tile3)).length := by
      simp only [List.length_map, List.length_range]
      exact tile_cover_index hy hx
    refine ⟨hb, ?_⟩
    rw [range_map_get]
    have hrw : y / th * (img.W / tw) + x / tw = img.W / tw * (y / th) + x / tw := by ring
    have hdm := div_mod_of (img.W / tw) (y / th) (x / tw) hgw hj
    dsimp only
    rw [hrw, hdm.1, hdm.2, Nat.div_add_mod, Nat.div_add_mod]

/-- Claim C4: for every image of rank 2 or 3 and every tile size not
exceeding the image dimensions, the Tiler drops only trailing rows/columns
(never pads) and returns a row-major sequence of non-overlapping tiles
covering the clipped image exactly once, a grid of shape
(floor(H/th), floor(W/tw)). -/
theorem c4_tiler (img : Img2) (img3 : Img3) (th tw : Nat)
    (hth : 0 < th) (htw : 0 < tw) (hH : th ≤ img.H) (hW : tw ≤ img.W)
    (hH3 : th ≤ img3.H) (hW3 : tw ≤ img3.W) (hC : 0 < img3.C) :
    C4Prop2 img th tw ∧ C4Prop3 img3 th tw :=
  ⟨tiler2_spec img th tw hth htw hH hW, tiler3_spec img3 th tw hth htw hH3 hW3 hC⟩

/-- Witness for C4: a 5 x 4 greyscale image and a 5 x 4 x 2 multichannel
image with 2 x 2 tiles. -/
theorem c4_tiler_witness :
    (0 < 2 ∧ 2 ≤ (5 : Nat) ∧ 2 ≤ (4 : Nat)) ∧
    C4Prop2 ⟨5, 4, fun r c => (r * 4 + c : Int)⟩ 2 2 ∧
    C4Prop3 ⟨5, 4, 2, fun r c ch => (r * 8 + c * 2 + ch : Int)⟩ 2 2 :=
  ⟨⟨by decide, by decide, by decide⟩,
    c4_tiler ⟨5, 4, fun r c => (r * 4 + c : Int)⟩ ⟨5, 4, 2, fun r c ch => (r * 8 + c * 2 + ch : Int)⟩
      2 2 (by decide) (by decide) (by decide) (by decide) (by decide) (by decide) (by decide)⟩

/-- Claim C7 (amended): tiling a batch whose first image has rank outside
scrap 2 and 3 fails, but only rank above 3 raises the explicit rank error
(TypeError); rank 0 or 1 instead dies with UnboundLocalError because no
branch ever assigns block_shape. -/
theorem c7_rank_errors (imgs : List PyImg) (i0 : PyImg) (tl : List PyImg) (th tw : Nat)
    (he : imgs = i0 :: tl) (h2 : i0.ndim ≠ 2) (h3 : i0.ndim ≠ 3) :
    tile_images imgs (some (th, tw)) =
      .error (if 3 < i0.ndim then PyError.typeError else PyError.unboundLocalError) := by
  subst he
  cases i0 with
  | im2 _ => exact absurd rfl h2
  | im3 _ => exact absurd rfl h3
  | imOther r =>
    simp only [tile_images, PyImg.ndim]
    by_cases hr : 3 < r
    · rw [if_pos hr, if_pos hr]
    · rw [if_neg hr, if_neg hr]

/-- Witness for C7 (amended) at a concrete rank-5 batch. -/
theorem c7_rank_errors_witness :
    ([PyImg.imOther 5] = PyImg.imOther 5 :: [] ∧ (PyImg.imOther 5).ndim ≠ 2 ∧
      (PyImg.imOther 5).ndim ≠ 3) ∧
    tile_images [PyImg.imOther 5] (some (2, 2)) =
      .error (if 3 < (PyImg.imOther 5).ndim then PyError.typeError
        else PyError.unboundLocalError) :=
  ⟨⟨rfl, by decide, by decide⟩,
    c7_rank_errors [PyImg.imOther 5] (PyImg.imOther 5) [] 2 2 rfl (by decide) (by decide)⟩

/-- Counterexample to C7 as stated: a rank-1 batch does not fail with the
rank-unsupported TypeError of line 48; it fails with UnboundLocalError. -/
theorem c7_counterexample :
    tile_images [PyImg.imOther 1] (some (2, 2)) = .error .unboundLocalError ∧
    PyError.unboundLocalError ≠ PyError.typeError :=
  ⟨rfl, by decide⟩

/-- Statement of claim C10: the clip amounts are computed from the first
image of the batch only and applied to every image; an image sharing the
first image's shape is thereby clipped by its own remainder. -/
def C10Prop (i0 : Img2) (tl : List Img2) (th tw : Nat) : Prop :=
  tileImages2 (i0 :: tl) th tw =
    mapE (fun im => viewAsBlocks2 ⟨im.H - i0.H % th, im.W - i0.W % tw, im.pix⟩ th tw)
      (i0 :: tl) ∧
  ∀ im : Img2, im.H = i0.H → im.W = i0.W →
    (⟨im.H - i0.H % th, im.W - i0.W % tw, im.pix⟩ : Img2) =
      ⟨im.H - im.H % th, im.W - im.W % tw, im.pix⟩

/-- Claim C10: the number of trailing rows/columns dropped is computed only
from the first image's shape and applied to every image of the batch. -/
theorem c10_clip_first (i0 : Img2) (tl : List Img2) (th tw : Nat)
    (hth : 0 < th) (htw : 0 < tw) : C10Prop i0 tl th tw := by
  refine ⟨tileImages2_clip i0 tl th tw hth htw, ?_⟩
  intro im h1 h2
  rw [h1, h2]

/-- Witness for C10: a batch whose second image (5 x 4) differs in shape
from the first (4 x 4) with 2 x 2 tiles: the second image is clipped by the
first image's remainders (here 0), not its own. -/
theorem c10_clip_first_witness :
    ((0 : Nat) < 2 ∧ (0 : Nat) < 2) ∧
    C10Prop ⟨4, 4, fun _ _ => (1 : Int)⟩ [⟨5, 4, fun _ _ => (2 : Int)⟩] 2 2 :=
  ⟨⟨by decide, by decide⟩,
    c10_clip_first ⟨4, 4, fun _ _ => (1 : Int)⟩ [⟨5, 4, fun _ _ => (2 : Int)⟩] 2 2
      (by decide) (by decide)⟩

/-- Row-major flattening of a rank-2 tile (numpy ravel). -/
def Tile2.flatten (t : Tile2) : List Int :=
  (List.range t.th).flatMap fun r => (List.range t.tw).map fun c => t.pix r c

/-- Row-major flattening of a rank-3 tile (numpy ravel). -/
def Tile3.flatten (t : Tile3) : List Int :=
  (List.range t.th).flatMap fun r =>
    (List.range t.tw).flatMap fun c => (List.range t.tc).map fun ch => t.pix r c ch

/-- Number of nonzero entries of a tile, (bl != 0).sum(). -/
def nonzeroCount (t : Tile2) : Nat := t.flatten.countP (fun v => v != 0)

/-- The foreground mask of get_blockfeats: a tile is kept iff strictly more
than half of its pixels are nonzero, (bl != 0).sum() > 0.5 * bl.size. -/
def isForeground (t : Tile2) : Bool :=
  decide ((0.5 : ℚ) * ((t.th * t.tw : Nat) : ℚ) < ((nonzeroCount t : Nat) : ℚ))

/-- Pair every element with its position (ascending), np.where(mask)[0] order. -/
def withIdx (n : Nat) : List α → List (Nat × α)
  | [] => []
  | a :: as => (n, a) :: withIdx (n + 1) as

/-- get_blockfeats(blocks): the pixel-value histograms of the foreground
tiles, indexed by their tile position.  When no tile is foreground the
pd.concat of an empty list raises ValueError. -/
def get_blockfeats (tiles : List Tile2) : Except PyError (List (Nat × Hist Int)) :=
  let fg := (withIdx 0 tiles).filter fun p => isForeground p.2
  if fg.isEmpty then .error .valueError
  else .ok (fg.map fun p => (p.1, get_block_counts p.2.flatten))

/-- The assignment loop of get_block_types: img_blocked[bf.index] =
km_block.predict(bf) + 1, with numpy raising IndexError for an index at or
beyond the grid size. -/
def gbtAux (km : List ℚ → Nat) (cols : Option (List Int)) :
    List (Nat × Hist Int) → List Int → Except PyError (List Int)
  | [], g => .ok g
  | p :: rest, g =>
    if p.1 < g.length then
      gbtAux km cols rest (g.set p.1 (Int.ofNat (km ((reindexOpt p.2 cols).map Prod.snd) + 1)))
    else .error .indexError

/-- get_block_types(bf, km_block, cols, grid_shape): a zero grid of
grid_shape[0] * grid_shape[1] cells (row-major) whose foreground positions
receive the predicted cluster label plus one.  km_block is None before fit,
and None.predict raises AttributeError. -/
def get_block_types (bf : List (Nat × Hist Int)) (km : Option (List ℚ → Nat))
    (cols : Option (List Int)) (gh gw : Nat) : Except PyError (List Int) :=
  match km with
  | none => .error .attributeError
  | some f => gbtAux f cols bf (List.replicate (gh * gw) 0)

/-- skimage.util.view_as_windows on the gh x gw grid with a w x w window and
stride 1, flattened row-major per window; a window larger than the grid
raises ValueError. -/
def viewAsWindows (grid : List Int) (gh gw w : Nat) : Except PyError (List (List Int)) :=
  if w = 0 ∨ gh < w ∨ gw < w then .error .valueError
  else
    .ok ((List.range (gh - w + 1)).flatMap fun i =>
      (List.range (gw - w + 1)).map fun j =>
        (List.range w).flatMap fun r =>
          (List.range w).map fun c => grid.getD ((i + r) * gw + (j + c)) 0)

/-- get_supblocks(img_blocked, window_shape): keep the windows whose center
cell is nonzero (mid = ceil(w/2) - 1) and return their block-type
histograms; np.stack of an empty list raises ValueError. -/
def get_supblocks (grid : List Int) (gh gw w : Nat) : Except PyError (List (Hist Int)) :=
  (viewAsWindows grid gh gw w).bind fun wins =>
    let mid := (w + 1) / 2 - 1
    let fgr := wins.filter fun sb => sb.getD (mid * w + mid) 0 != 0
    if fgr.isEmpty then .error .valueError
    else .ok (fgr.map get_block_counts)

/-- get_color_supblocks: same sliding windows with no center filter. -/
def get_color_supblocks (grid : List Int) (gh gw w : Nat) :
    Except PyError (List (Hist Int)) :=
  (viewAsWindows grid gh gw w).map fun wins => wins.map get_block_counts

/-- flatten_tiles(blocks): each rank-3 tile as its raveled intensity vector. -/
def flatten_tiles (ts : List Tile3) : List (List Int) := ts.map Tile3.flatten

/-- The SegfreeProfiler object: configuration plus the fitted state.  The
fitted sklearn estimators are represented by their predict / transform
functions; before fit they are None. -/
structure SegfreeProfiler where
  tile_size : Option (Nat × Nat)
  n_block_types : Nat := 50
  n_supblock_types : Nat := 30
  n_components : Nat := 50
  n_subset : Nat := 10000
  pca : Option (List Int → List ℚ) := none
  km_block : Option (List ℚ → Nat) := none
  km_supblock : Option (List ℚ → Nat) := none
  pixel_types : Option (List Int) := none

/-- The external fitted-estimator factories: KMeans(...).fit(data).predict
and PCA(...).fit(data).transform as deterministic functions of the data and
the seeding arguments.  kmFit data k n_init seed, pcaFit data n_components
seed. -/
structure Ext where
  kmFit : List (List ℚ) → Nat → Nat → Nat → (List ℚ → Nat)
  pcaFit : List (List Int) → Nat → Nat → (List Int → List ℚ)

/-- Column union of a list of one-row DataFrames in order of first
appearance, as pd.concat builds the non-concatenation axis. -/
def unionKeys (hs : List (Hist Int)) : List Int :=
  hs.foldl (fun acc h => acc ++ ((h.map Prod.fst).filter fun k => decide (k ∉ acc))) []

/-- One row of the output profile, kept in the three labelled column groups
that _transform_* concatenates left to right: superblock-type frequencies,
block-type frequencies, then pixel-level frequencies (single-channel) or
mean PC values (multichannel). -/
structure ProfileRow where
  supCols : List (String × ℚ)
  blockCols : List (String × ℚ)
  baseCols : List (String × ℚ)
  deriving DecidableEq, Repr

/-- pd.concat(..., axis=1) of the three groups: the flat profile row. -/
def ProfileRow.flat (r : ProfileRow) : List (String × ℚ) :=
  r.supCols ++ r.blockCols ++ r.baseCols

/-- Zip three aligned per-image lists into rows. -/
def zip3With (f : α → β → γ → δ) : List α → List β → List γ → List δ
  | a :: as, b :: bs, c :: cs => f a b c :: zip3With f as bs cs
  | _, _, _ => []

/-- Fallback image for imgs.headD; tile_images errors on an empty batch
before any head access, so the default is never observable. -/
def defaultImg2 : Img2 := ⟨0, 0, fun _ _ => 0⟩

def defaultImg3 : Img3 := ⟨0, 0, 0, fun _ _ _ => 0⟩

/-- The recomputation branch of _transform_single_channel (supblocks is
None): per image the block features, the block-type grid and the
foreground-centered superblock histograms, from the profiler's fitted
state. -/
def computeBS (P : SegfreeProfiler) (tiles : List (List Tile2)) (gh gw : Nat) :
    Except PyError (List (List Int) × List (List (Hist Int))) :=
  (mapE get_blockfeats tiles).bind fun bfs =>
    (mapE (fun bf => get_block_types bf P.km_block P.pixel_types gh gw) bfs).bind fun bls =>
      (mapE (fun bl => get_supblocks bl gh gw 3) bls).bind fun sbs =>
        .ok (bls, sbs)

/-- _transform_single_channel(imgs, blocks, supblocks).  The profile row of
each image: pixel-level histogram over the whole (clipped) image reindexed
to the fit-time pixel vocabulary; block-type histogram reindexed to
range(n_block_types + 1); superblock-type histogram of the predicted
superblock labels reindexed to range(n_supblock_types) and renamed with
label + 1. -/
def transformSingle (P : SegfreeProfiler) (imgs : List Img2)
    (bsOpt : Option (List (List Int) × List (List (Hist Int)))) :
    Except PyError (List ProfileRow) :=
  match P.tile_size with
  | none => .error .typeError
  | some (th, tw) =>
    (tileImages2 imgs th tw).bind fun tiles =>
      let pixRows := tiles.map fun ts =>
        (reindexOpt (get_block_counts (ts.flatMap Tile2.flatten)) P.pixel_types).map
          fun p => ("pixel-" ++ toString p.1, p.2)
      let i0 := imgs.headD defaultImg2
      let gh := i0.H / th
      let gw := i0.W / tw
      (Except.bind
        (match bsOpt with
         | some bs => Except.ok bs
         | none => computeBS P tiles gh gw) fun bs =>
        match P.km_supblock with
        | none => .error .attributeError
        | some kmS =>
          let blockRows := bs.1.map fun bl =>
            (reindexFill (get_block_counts bl) (rangeInt (P.n_block_types + 1))).map
              fun p => ("block-" ++ toString p.1, p.2)
          let supRows := bs.2.map fun sbf =>
            (reindexFill
              (get_block_counts (sbf.map fun h =>
                Int.ofNat (kmS ((reindexFill h (rangeInt (P.n_block_types + 1))).map Prod.snd))))
              (rangeInt P.n_supblock_types)).map
              fun p => ("superblock-" ++ toString (p.1 + 1), p.2)
          .ok (zip3With ProfileRow.mk supRows blockRows pixRows))

/-- _fit_single_channel(imgs, n_init, random_state): learn the pixel
vocabulary (column union of the pooled foreground-tile histograms), fit
km_block on those histograms, assign block-type grids, pool the superblock
histograms and fit km_supblock; returns the updated profiler together with
the intermediate per-image block grids and superblock histograms that the
transform=True path reuses. -/
def fitSingle (ext : Ext) (P : SegfreeProfiler) (imgs : List Img2) (nInit seed : Nat) :
    Except PyError (SegfreeProfiler × (List (List Int) × List (List (Hist Int)))) :=
  match P.tile_size with
  | none => .error .typeError
  | some (th, tw) =>
    (tileImages2 imgs th tw).bind fun tiles =>
      (mapE get_blockfeats tiles).bind fun bfs =>
        let allHists := bfs.flatMap fun bf => bf.map Prod.snd
        let pixelTypes := unionKeys allHists
        let blockdf := allHists.map fun h => pixelTypes.map (lookupQ h)
        let kmB := ext.kmFit blockdf P.n_block_types nInit seed
        let i0 := imgs.headD defaultImg2
        let gh := i0.H / th
        let gw := i0.W / tw
        (mapE (fun bf => get_block_types bf (some kmB) (some pixelTypes) gh gw) bfs).bind
          fun bls =>
            (mapE (fun bl => get_supblocks bl gh gw 3) bls).bind fun sbs =>
              let supHists := sbs.flatMap id
              let supCols := unionKeys supHists
              let supdf := supHists.map fun h => supCols.map (lookupQ h)
              let kmS := ext.kmFit supdf P.n_supblock_types nInit seed
              let Pfit := { P with pixel_types := some pixelTypes,
                                   km_block := some kmB,
                                   km_supblock := some kmS }
              .ok (Pfit, (bls, sbs))

theorem mem_withIdx {l : List α} {n j : Nat} {a : α} :
    (j, a) ∈ withIdx n l ↔ n ≤ j ∧ l.get? (j - n) = some a := by
  induction l generalizing n with
  | nil => simp [withIdx]
  | cons b t ih =>
    simp only [withIdx, List.mem_cons, ih]
    constructor
    · rintro (h | ⟨h1, h2⟩)
      · have hj : j = n := congrArg Prod.fst h
        have ha : a = b := congrArg Prod.snd h
        subst hj; subst ha
        exact ⟨Nat.le_refl _, by simp⟩
      · refine ⟨by omega, ?_⟩
        have : j - n = (j - (n + 1)) + 1 := by omega
        rw [this]
        simpa using h2
    · rintro ⟨h1, h2⟩
      by_cases hj : j = n
      · subst hj
        simp at h2
        subst h2
        exact Or.inl rfl
      · right
        refine ⟨by omega, ?_⟩
        have : j - n = (j - (n + 1)) + 1 := by omega
        rw [this] at h2
        simpa using h2

theorem fst_mem_withIdx_ge {l : List α} {n j : Nat}
    (h : j ∈ (withIdx n l).map Prod.fst) : n ≤ j := by
  rcases List.mem_map.mp h with ⟨p, hp, hfst⟩
  rcases p with ⟨j', a⟩
  cases hfst
  exact (mem_withIdx.mp hp).1

theorem withIdx_map_fst_nodup (l : List α) (n : Nat) :
    ((withIdx n l).map Prod.fst).Nodup := by
  induction l generalizing n with
  | nil => simp [withIdx]
  | cons b t ih =>
    simp only [withIdx, List.map_cons]
    rw [List.nodup_cons]
    refine ⟨fun hmem => ?_, ih (n + 1)⟩
    have := fst_mem_withIdx_ge hmem
    omega

theorem getD_replicate_zero (n i : Nat) : (List.replicate n (0 : Int)).getD i 0 = 0 := by
  induction n generalizing i with
  | zero => simp
  | succ m ih =>
    cases i with
    | zero => simp [List.replicate]
    | succ i' => simpa [List.replicate] using ih i'

theorem getD_set_self (l : List Int) (i : Nat) (v : Int) (h : i < l.length) :
    (l.set i v).getD i 0 = v := by
  induction l generalizing i with
  | nil => simp at h
  | cons a t ih =>
    cases i with
    | zero => simp
    | succ i' => simpa using ih i' (by simpa using h)

theorem getD_set_ne (l : List Int) (i j : Nat) (v : Int) (h : i ≠ j) :
    (l.set i v).getD j 0 = l.getD j 0 := by
  induction l generalizing i j with
  | nil => simp
  | cons a t ih =>
    cases i with
    | zero =>
      cases j with
      | zero => exact absurd rfl h
      | succ j' => simp
    | succ i' =>
      cases j with
      | zero => simp
      | succ j' => simpa using ih i' j' (by omega)

theorem gbtAux_length {km : List ℚ → Nat} {cols : Option (List Int)} :
    ∀ {bf : List (Nat × Hist Int)} {g g' : List Int},
      gbtAux km cols bf g = .ok g' → g'.length = g.length := by
  intro bf
  induction bf with
  | nil =>
    intro g g' h
    simp only [gbtAux] at h
    cases h
    rfl
  | cons p rest ih =>
    intro g g' h
    simp only [gbtAux] at h
    by_cases hlt : p.1 < g.length
    · rw [if_pos hlt] at h
      have := ih h
      simpa using this
    · rw [if_neg hlt] at h
      cases h

theorem gbtAux_untouched {km : List ℚ → Nat} {cols : Option (List Int)} :
    ∀ {bf : List (Nat × Hist Int)} {g g' : List Int} {i : Nat},
      gbtAux km cols bf g = .ok g' → (∀ p ∈ bf, p.1 ≠ i) →
      g'.getD i 0 = g.getD i 0 := by
  intro bf
  induction bf with
  | nil =>
    intro g g' i h _
    simp only [gbtAux] at h
    cases h
    rfl
  | cons p rest ih =>
    intro g g' i h hne
    simp only [gbtAux] at h
    by_cases hlt : p.1 < g.length
    · rw [if_pos hlt] at h
      have h1 := ih h (fun q hq => hne q (List.mem_cons_of_mem p hq))
      rw [h1, getD_set_ne _ _ _ _ (hne p (List.mem_cons_self p rest))]
    · rw [if_neg hlt] at h
      cases h

theorem gbtAux_mem_label {km : List ℚ → Nat} {cols : Option (List Int)} :
    ∀ {bf : List (Nat × Hist Int)} {g g' : List Int},
      gbtAux km cols bf g = .ok g' → (bf.map Prod.fst).Nodup →
      ∀ p ∈ bf, g'.getD p.1 0 =
        Int.ofNat (km ((reindexOpt p.2 cols).map Prod.snd) + 1) := by
  intro bf
  induction bf with
  | nil =>
    intro g g' h _ p hp
    cases hp
  | cons q rest ih =>
    intro g g' h hnd p hp
    simp only [gbtAux] at h
    by_cases hlt : q.1 < g.length
    · rw [if_pos hlt] at h
      have hnd2 : (q.1 :: rest.map Prod.fst).Nodup := by simpa using hnd
      have hq1 : q.1 ∉ rest.map Prod.fst := (List.nodup_cons.mp hnd2).1
      have hndr : (rest.map Prod.fst).Nodup := (List.nodup_cons.mp hnd2).2
      rcases List.mem_cons.mp hp with rfl | hrest
      · have hne : ∀ r ∈ rest, r.1 ≠ p.1 :=
          fun r hr he => hq1 (by rw [← he]; exact List.mem_map_of_mem Prod.fst hr)
        have huntouched := gbtAux_untouched h hne
        rw [huntouched, getD_set_self _ _ _ hlt]
      · exact ih h hndr p hrest
    · rw [if_neg hlt] at h
      cases h

theorem gbtAux_values {km : List ℚ → Nat} {cols : Option (List Int)} :
    ∀ {bf : List (Nat × Hist Int)} {g g' : List Int},
      gbtAux km cols bf g = .ok g' →
      ∀ v ∈ g', v ∈ g ∨ ∃ x, v = Int.ofNat (km x + 1) := by
  intro bf
  induction bf with
  | nil =>
    intro g g' h v hv
    simp only [gbtAux] at h
    cases h
    exact Or.inl hv
  | cons p rest ih =>
    intro g g' h v hv
    simp only [gbtAux] at h
    by_cases hlt : p.1 < g.length
    · rw [if_pos hlt] at h
      rcases ih h v hv with hmem | hx
      · rcases List.mem_or_eq_of_mem_set hmem with hg | rfl
        · exact Or.inl hg
        · exact Or.inr ⟨_, rfl⟩
      · exact Or.inr hx
    · rw [if_neg hlt] at h
      cases h

/-- Statement of claim C6 for a tile list, the induced foreground features
bf and the induced block-type grid g: foreground means strictly more than
half the pixels nonzero; exactly the foreground tiles enter the clustered
feature table; in the grid foreground positions carry labels 1..k and
background positions carry 0. -/
def C6Prop (tiles : List Tile2) (k : Nat) (bf : List (Nat × Hist Int)) (g : List Int) : Prop :=
  (∀ t : Tile2, isForeground t = true ↔ t.th * t.tw < 2 * nonzeroCount t) ∧
  (∀ i : Nat, i ∈ bf.map Prod.fst ↔
    ∃ h : i < tiles.length, isForeground (tiles.get ⟨i, h⟩) = true) ∧
  (∀ i : Nat, ∀ h : i < tiles.length, i < g.length →
    (isForeground (tiles.get ⟨i, h⟩) = true → 1 ≤ g.getD i 0 ∧ g.getD i 0 ≤ (k : Int)) ∧
    (isForeground (tiles.get ⟨i, h⟩) = false → g.getD i 0 = 0))

theorem blockfeats_ok_shape {tiles : List Tile2} {bf : List (Nat × Hist Int)}
    (hbf : get_blockfeats tiles = .ok bf) :
    bf = ((withIdx 0 tiles).filter fun p => isForeground p.2).map
      (fun p => (p.1, get_block_counts p.2.flatten)) ∧
    ¬((withIdx 0 tiles).filter fun p => isForeground p.2).isEmpty := by
  unfold get_blockfeats at hbf
  by_cases he : ((withIdx 0 tiles).filter fun p => isForeground p.2).isEmpty
  · rw [if_pos he] at hbf
    cases hbf
  · rw [if_neg he] at hbf
    cases hbf
    exact ⟨rfl, he⟩

theorem blockfeats_keys_nodup {tiles : List Tile2} {bf : List (Nat × Hist Int)}
    (hbf : get_blockfeats tiles = .ok bf) : (bf.map Prod.fst).Nodup := by
  obtain ⟨rfl, -⟩ := blockfeats_ok_shape hbf
  have he : (((withIdx 0 tiles).filter fun p => isForeground p.2).map
      (fun p => (p.1, get_block_counts p.2.flatten))).map Prod.fst =
      ((withIdx 0 tiles).filter fun p => isForeground p.2).map Prod.fst := by
    rw [List.map_map]
    rfl
  rw [he]
  exact ((withIdx_map_fst_nodup tiles 0).sublist
    (List.Sublist.map Prod.fst (List.filter_sublist _)))

theorem blockfeats_keys_iff {tiles : List Tile2} {bf : List (Nat × Hist Int)}
    (hbf : get_blockfeats tiles = .ok bf) (i : Nat) :
    i ∈ bf.map Prod.fst ↔
      ∃ h : i < tiles.length, isForeground (tiles.get ⟨i, h⟩) = true := by
  obtain ⟨rfl, -⟩ := blockfeats_ok_shape hbf
  constructor
  · intro hmem
    rcases List.mem_map.mp hmem with ⟨q, hq, hfst⟩
    rcases List.mem_map.mp hq with ⟨p, hp, hpq⟩
    rcases List.mem_filter.mp hp with ⟨hpmem, hpfg⟩
    rcases p with ⟨j, t⟩
    have hj : j = i := by
      subst hpq
      exact hfst
    subst hj
    have hget := (mem_withIdx.mp hpmem).2
    rw [Nat.sub_zero] at hget
    rcases List.get?_eq_some.mp hget with ⟨hlen, hgete⟩
    exact ⟨hlen, by rw [hgete]; exact hpfg⟩
  · rintro ⟨h, hfg⟩
    have hget : tiles.get? i = some (tiles.get ⟨i, h⟩) := List.get?_eq_get h
    have hpmem : (i, tiles.get ⟨i, h⟩) ∈ withIdx 0 tiles :=
      mem_withIdx.mpr ⟨Nat.zero_le _, by rw [Nat.sub_zero]; exact hget⟩
    have hpfil : (i, tiles.get ⟨i, h⟩) ∈
        (withIdx 0 tiles).filter fun p => isForeground p.2 :=
      List.mem_filter.mpr ⟨hpmem, hfg⟩
    exact List.mem_map.mpr ⟨(i, get_block_counts (tiles.get ⟨i, h⟩).flatten),
      List.mem_map_of_mem _ hpfil, rfl⟩

/-- Claim C6: in the single-channel path a tile is foreground iff strictly
more than half of its pixels are nonzero; only foreground tiles enter block
clustering; in the block-type grid background positions hold 0 and
foreground positions hold labels in 1..n_block_types. -/
theorem c6_foreground (tiles : List Tile2) (kmB : List ℚ → Nat) (cols : Option (List Int))
    (gh gw k : Nat) (bf : List (Nat × Hist Int)) (g : List Int)
    (hkm : ∀ x, kmB x < k)
    (hbf : get_blockfeats tiles = .ok bf)
    (hg : get_block_types bf (some kmB) cols gh gw = .ok g) :
    C6Prop tiles k bf g := by
  have hg' : gbtAux kmB cols bf (List.replicate (gh * gw) 0) = .ok g := hg
  have hnd := blockfeats_keys_nodup hbf
  refine ⟨?_, blockfeats_keys_iff hbf, ?_⟩
  · intro t
    unfold isForeground
    rw [decide_eq_true_iff]
    constructor
    · intro h
      have h2 : ((t.th * t.tw : Nat) : ℚ) < 2 * ((nonzeroCount t : Nat) : ℚ) := by
        rw [show (0.5 : ℚ) = 1/2 by norm_num] at h
        linarith
      exact_mod_cast h2
    · intro h
      have h2 : ((t.th * t.tw : Nat) : ℚ) < 2 * ((nonzeroCount t : Nat) : ℚ) := by
        exact_mod_cast h
      rw [show (0.5 : ℚ) = 1/2 by norm_num]
      linarith
  · intro i h hig
    constructor
    · intro hfg
      have hmem : i ∈ bf.map Prod.fst := (blockfeats_keys_iff hbf i).mpr ⟨h, hfg⟩
      rcases List.mem_map.mp hmem with ⟨p, hp, hfst⟩
      have := gbtAux_mem_label hg' hnd p hp
      rw [hfst] at this
      rw [this, Int.ofNat_eq_coe]
      have hk := hkm ((reindexOpt p.2 cols).map Prod.snd)
      constructor
      · exact_mod_cast Nat.succ_le_succ (Nat.zero_le _)
      · exact_mod_cast hk
    · intro hbg
      have hnotmem : i ∉ bf.map Prod.fst := by
        intro hmem
        rcases (blockfeats_keys_iff hbf i).mp hmem with ⟨h', hfg⟩
        rw [hbg] at hfg
        cases hfg
      have hne : ∀ p ∈ bf, p.1 ≠ i :=
        fun p hp he => hnotmem (by rw [← he]; exact List.mem_map_of_mem Prod.fst hp)
      have := gbtAux_untouched hg' hne
      rw [this, getD_replicate_zero]

instance {ε α : Type} [DecidableEq ε] [DecidableEq α] : DecidableEq (Except ε α) :=
  fun x y =>
    match x, y with
    | .ok a, .ok b =>
      if h : a = b then isTrue (by rw [h]) else isFalse (fun he => by cases he; exact h rfl)
    | .ok _, .error _ => isFalse (fun he => by cases he)
    | .error _, .ok _ => isFalse (fun he => by cases he)
    | .error e, .error f =>
      if h : e = f then isTrue (by rw [h]) else isFalse (fun he => by cases he; exact h rfl)

/-- A 1 x 1 background tile (its only pixel is zero). -/
def tileBg : Tile2 := ⟨1, 1, fun _ _ => 0⟩

/-- A 1 x 1 foreground tile. -/
def tileFg : Tile2 := ⟨1, 1, fun _ _ => 5⟩

/-- A concrete predict function: every sample goes to cluster 0. -/
def kmZero : List ℚ → Nat := fun _ => 0

unseal Rat.mul Rat.inv Rat.add Rat.sub Rat.ofScientific in
/-- Witness for C6: two 1 x 1 tiles, one background and one foreground,
a single clustering into one block type, and a 1 x 2 grid. -/
theorem c6_foreground_witness :
    ((∀ x : List ℚ, kmZero x < 1) ∧
      get_blockfeats [tileBg, tileFg] = .ok [(1, [(5, 1)])] ∧
      get_block_types [(1, ([(5, 1)] : Hist Int))] (some kmZero) none 1 2 = .ok [0, 1]) ∧
    C6Prop [tileBg, tileFg] 1 [(1, [(5, 1)])] [0, 1] :=
  ⟨⟨fun _ => Nat.one_pos, by decide, by decide⟩,
    c6_foreground [tileBg, tileFg] kmZero none 1 2 1 [(1, [(5, 1)])] [0, 1]
      (fun _ => Nat.one_pos) (by decide) (by decide)⟩

/-- A 3 x 3 checkerboard image: 5 nonzero pixels (center included), 4 zero
pixels.  With 1 x 1 tiles it yields 5 foreground and 4 background tiles. -/
def imgA : Img2 := ⟨3, 3, fun r c => if (r + c) % 2 = 0 then 1 else 0⟩

/-- A 3 x 3 pure-background image: every pixel is zero. -/
def imgZ : Img2 := ⟨3, 3, fun _ _ => 0⟩

/-- A concrete instantiation of the external estimators: both KMeans models
predict cluster 0 for every sample. -/
def ext0 : Ext :=
  { kmFit := fun _ _ _ _ => fun _ => 0,
    pcaFit := fun _ _ _ => fun _ => [] }

/-- A profiler configured with 1 x 1 tiles, 2 block types and 2 superblock
types, not yet fitted. -/
def P0 : SegfreeProfiler :=
  { tile_size := some (1, 1), n_block_types := 2, n_supblock_types := 2 }

/-- The profiler produced by fitting P0 on the checkerboard image. -/
def fittedP1 : SegfreeProfiler :=
  match fitSingle ext0 P0 [imgA] 1 1 with
  | .ok r => r.1
  | .error _ => P0

/-- The rows of a successful transform, or the empty table on an error. -/
def okRows (e : Except PyError (List ProfileRow)) : List ProfileRow :=
  match e with
  | .ok rows => rows
  | .error _ => []

/-- Fallback profile row. -/
def defRow : ProfileRow := ⟨[], [], []⟩

unseal Rat.mul Rat.inv Rat.add Rat.sub Rat.ofScientific in
/-- Counterexample to C1 as stated: with n_block_types = 2, the profile row
of the checkerboard image carries THREE block-type columns labelled 0, 1
and 2 (range(n_block_types + 1), including the background label 0), not two
columns labelled 1..2; and the values over labels 1..2 sum to 5/9 — the
foreground tile fraction — although the image has foreground tiles, so the
claim would require 1.0.  (All three columns together sum to 1.) -/
theorem c1_counterexample :
    ((okRows (transformSingle fittedP1 [imgA] none)).headD defRow).blockCols =
      [("block-0", 4/9), ("block-1", 5/9), ("block-2", 0)] ∧
    ((5 : ℚ)/9 ≠ 1 ∧ (5 : ℚ)/9 ≠ 0) ∧
    (tileImages2 [imgA] 1 1).map
      (fun ts => ((ts.headD []).filter (fun t => isForeground t)).length) = .ok 5 := by
  refine ⟨by decide, ⟨by decide, by decide⟩, by decide⟩

unseal Rat.mul Rat.inv Rat.add Rat.sub Rat.ofScientific in
/-- Claim C2 is what the specification demands, but the code aborts instead:
transforming a batch that contains the pure-background image raises
ValueError (pd.concat of an empty list in get_blockfeats), and even fitting
on a batch containing it aborts the same way, rather than excluding the
image and zero-filling its columns. -/
theorem c2_background_aborts :
    transformSingle fittedP1 [imgZ] none = .error .valueError ∧
    fitSingle ext0 P0 [imgA, imgZ] 1 1 = .error .valueError :=
  ⟨rfl, rfl⟩

theorem sum_map_zero (l : List α) : (l.map fun _ => (0 : ℚ)).sum = 0 := by
  induction l with
  | nil => rfl
  | cons a t ih => simp [ih]

theorem sum_map_add (f g : α → ℚ) (l : List α) :
    (l.map fun x => f x + g x).sum = (l.map f).sum + (l.map g).sum := by
  induction l with
  | nil => simp
  | cons a t ih =>
    simp only [List.map_cons, List.sum_cons, ih]
    ring

theorem sum_map_div (f : α → ℚ) (d : ℚ) (l : List α) :
    (l.map fun x => f x / d).sum = (l.map f).sum / d := by
  induction l with
  | nil => simp
  | cons a t ih =>
    simp only [List.map_cons, List.sum_cons, ih]
    ring

theorem sum_ite_not_mem (keys : List Int) (a : Int) (v : ℚ) (ha : a ∉ keys) :
    (keys.map fun c => if c = a then v else 0).sum = 0 := by
  induction keys with
  | nil => rfl
  | cons b t ih =>
    have hba : b ≠ a := fun he => ha (he ▸ List.mem_cons_self b t)
    have hat : a ∉ t := fun hm => ha (List.mem_cons_of_mem b hm)
    simp [hba, ih hat]

theorem sum_ite_mem (keys : List Int) (a : Int) (v : ℚ)
    (hnd : keys.Nodup) (ha : a ∈ keys) :
    (keys.map fun c => if c = a then v else 0).sum = v := by
  induction keys with
  | nil => cases ha
  | cons b t ih =>
    rcases List.mem_cons.mp ha with rfl | hat
    · have hbt : a ∉ t := (List.nodup_cons.mp hnd).1
      simp [sum_ite_not_mem t a v hbt]
    · have hba : b ≠ a := by
        intro he
        exact (List.nodup_cons.mp hnd).1 (he ▸ hat)
      simp only [List.map_cons, List.sum_cons, if_neg hba,
        ih (List.nodup_cons.mp hnd).2 hat]
      ring

theorem sum_counts (l keys : List Int) (hnd : keys.Nodup)
    (hcover : ∀ x ∈ l, x ∈ keys) :
    (keys.map fun k => ((l.count k : Nat) : ℚ)).sum = l.length := by
  induction l with
  | nil =>
    simp only [List.count_nil, Nat.cast_zero, List.length_nil]
    exact sum_map_zero keys
  | cons a t ih =>
    have step : ∀ k ∈ keys, (((a :: t).count k : Nat) : ℚ) =
        ((t.count k : Nat) : ℚ) + (if k = a then (1 : ℚ) else 0) := by
      intro k _
      rw [List.count_cons]
      by_cases h : k = a
      · simp [h]
      · have h' : ¬a = k := fun he => h he.symm
        simp [h, h']
    calc (keys.map fun k => (((a :: t).count k : Nat) : ℚ)).sum
        = (keys.map fun k => ((t.count k : Nat) : ℚ) + (if k = a then (1 : ℚ) else 0)).sum := by
          exact congrArg List.sum (List.map_congr_left step)
      _ = (keys.map fun k => ((t.count k : Nat) : ℚ)).sum +
          (keys.map fun k => if k = a then (1 : ℚ) else 0).sum :=
          sum_map_add _ _ keys
      _ = (t.length : ℚ) + 1 := by
          rw [ih (fun x hx => hcover x (List.mem_cons_of_mem a hx)),
            sum_ite_mem keys a 1 hnd (hcover a (List.mem_cons_self a t))]
      _ = ((a :: t).length : ℚ) := by
          rw [List.length_cons]
          push_cast
          ring

/-- The histogram produced by get_block_counts on a nonempty array sums
to exactly 1. -/
theorem get_block_counts_sum (l : List Int) (hne : l ≠ []) :
    ((get_block_counts l).map Prod.snd).sum = 1 := by
  have hlen : (0 : ℚ) < (l.length : ℚ) := by
    have : 0 < l.length := List.length_pos.mpr hne
    exact_mod_cast this
  unfold get_block_counts
  rw [List.map_map]
  have he : (Prod.snd ∘ fun k => (k, ((l.count k : Nat) : ℚ) / (l.length : ℚ))) =
      fun k => ((l.count k : Nat) : ℚ) / (l.length : ℚ) := rfl
  rw [he, sum_map_div (fun k => ((l.count k : Nat) : ℚ)) (l.length : ℚ) (sortedKeys l),
    sum_counts l (sortedKeys l) (sortedKeys_nodup l) (fun x hx => mem_sortedKeys.mpr hx)]
  exact div_self (ne_of_gt hlen)

theorem lookupQ_not_mem (h : Hist Int) (c : Int) (hc : c ∉ h.map Prod.fst) :
    lookupQ h c = 0 := by
  induction h with
  | nil => rfl
  | cons p t ih =>
    have hpc : p.1 ≠ c := by
      intro he
      exact hc (he ▸ List.mem_map_of_mem Prod.fst (List.mem_cons_self p t))
    simp only [lookupQ, if_neg hpc]
    exact ih fun hm => hc (List.mem_cons_of_mem _ hm)

/-- Reindexing to a duplicate-free superset of the support preserves the
total mass of a histogram. -/
theorem reindexFill_sum (h : Hist Int) (cols : List Int)
    (hnd : (h.map Prod.fst).Nodup) (hcols : cols.Nodup)
    (hsub : ∀ x ∈ h.map Prod.fst, x ∈ cols) :
    ((reindexFill h cols).map Prod.snd).sum = (h.map Prod.snd).sum := by
  induction h with
  | nil =>
    unfold reindexFill
    rw [List.map_map]
    have he : (Prod.snd ∘ fun c => (c, lookupQ [] c)) = fun _ => (0 : ℚ) := by
      funext c
      rfl
    rw [he, sum_map_zero]
    rfl
  | cons p t ih =>
    have hnd2 : (p.1 :: t.map Prod.fst).Nodup := by simpa using hnd
    have hp1 : p.1 ∉ t.map Prod.fst := (List.nodup_cons.mp hnd2).1
    have hndt : (t.map Prod.fst).Nodup := (List.nodup_cons.mp hnd2).2
    have hsubt : ∀ x ∈ t.map Prod.fst, x ∈ cols := by
      intro x hx
      exact hsub x (by simpa using Or.inr hx)
    have hstep : ∀ c ∈ cols, lookupQ (p :: t) c =
        lookupQ t c + (if c = p.1 then p.2 else 0) := by
      intro c _
      by_cases hcp : p.1 = c
      · subst hcp
        rw [lookupQ_not_mem t p.1 hp1]
        simp [lookupQ]
      · have : c ≠ p.1 := fun he => hcp he.symm
        simp [lookupQ, hcp, this]
    unfold reindexFill
    rw [List.map_map]
    have he : (cols.map (Prod.snd ∘ fun c => (c, lookupQ (p :: t) c))) =
        cols.map fun c => lookupQ (p :: t) c := rfl
    rw [he, List.map_congr_left hstep, sum_map_add (fun c => lookupQ t c)
      (fun c => if c = p.1 then p.2 else 0) cols,
      sum_ite_mem cols p.1 p.2 hcols (hsub p.1 (by simp))]
    have hih := ih hndt hsubt
    unfold reindexFill at hih
    rw [List.map_map] at hih
    have he2 : (cols.map (Prod.snd ∘ fun c => (c, lookupQ t c))) =
        cols.map fun c => lookupQ t c := rfl
    rw [he2] at hih
    rw [hih]
    simp only [List.map_cons, List.sum_cons]
    ring

theorem rangeInt_nodup (n : Nat) : (rangeInt n).Nodup :=
  (List.nodup_range n).map fun a b h => Int.ofNat.inj h

theorem mem_rangeInt_of {v : Int} {n : Nat} (h0 : 0 ≤ v) (hn : v < (n : Int)) :
    v ∈ rangeInt n := by
  obtain ⟨m, rfl⟩ := Int.eq_ofNat_of_zero_le h0
  exact List.mem_map.mpr ⟨m, List.mem_range.mpr (by exact_mod_cast hn), rfl⟩

theorem blockfeats_ne_nil {tiles : List Tile2} {bf : List (Nat × Hist Int)}
    (hbf : get_blockfeats tiles = .ok bf) : bf ≠ [] := by
  obtain ⟨rfl, hne⟩ := blockfeats_ok_shape hbf
  intro h
  apply hne
  rw [List.isEmpty_iff]
  exact List.map_eq_nil_iff.mp h

theorem get_block_types_length {bf : List (Nat × Hist Int)} {km : List ℚ → Nat}
    {cols : Option (List Int)} {gh gw : Nat} {g : List Int}
    (hg : get_block_types bf (some km) cols gh gw = .ok g) : g.length = gh * gw := by
  have := @gbtAux_length km cols bf (List.replicate (gh * gw) 0) g hg
  simpa using this

theorem get_block_types_pos {bf : List (Nat × Hist Int)} {km : List ℚ → Nat}
    {cols : Option (List Int)} {gh gw : Nat} {g : List Int}
    (hg : get_block_types bf (some km) cols gh gw = .ok g) (hne : bf ≠ []) :
    g ≠ [] := by
  cases bf with
  | nil => exact absurd rfl hne
  | cons p rest =>
    have hg' : gbtAux km cols (p :: rest) (List.replicate (gh * gw) 0) = .ok g := hg
    simp only [gbtAux] at hg'
    by_cases hlt : p.1 < (List.replicate (gh * gw) (0 : Int)).length
    · intro hgnil
      have hlen : g.length = gh * gw := get_block_types_length hg
      rw [hgnil, List.length_nil] at hlen
      rw [List.length_replicate] at hlt
      omega
    · rw [if_neg hlt] at hg'
      cases hg'

theorem get_block_types_values {bf : List (Nat × Hist Int)} {km : List ℚ → Nat}
    {cols : Option (List Int)} {gh gw k : Nat} {g : List Int}
    (hg : get_block_types bf (some km) cols gh gw = .ok g)
    (hkm : ∀ x, km x < k) :
    ∀ v ∈ g, 0 ≤ v ∧ v < ((k : Int) + 1) := by
  intro v hv
  rcases @gbtAux_values km cols bf (List.replicate (gh * gw) 0) g hg v hv with hrep | ⟨x, rfl⟩
  · have := List.eq_of_mem_replicate hrep
    subst this
    constructor
    · exact le_refl 0
    · have : (0 : Int) ≤ (k : Int) := by exact_mod_cast Nat.zero_le k
      omega
  · rw [Int.ofNat_eq_coe]
    have := hkm x
    constructor
    · exact_mod_cast Nat.zero_le _
    · have h2 : km x + 1 < k + 2 := by omega
      have h3 : (km x + 1 : Nat) ≤ k := this
      exact_mod_cast Nat.lt_succ_of_le h3

theorem mem_zip3With {f : α → β → γ → δ} :
    ∀ {as : List α} {bs : List β} {cs : List γ} {d : δ},
      d ∈ zip3With f as bs cs →
      ∃ a b c, a ∈ as ∧ b ∈ bs ∧ c ∈ cs ∧ d = f a b c := by
  intro as
  induction as with
  | nil =>
    intro bs cs d h
    cases h
  | cons a as' ih =>
    intro bs cs d h
    cases bs with
    | nil => cases h
    | cons b bs' =>
      cases cs with
      | nil => cases h
      | cons c cs' =>
        rcases List.mem_cons.mp h with rfl | htail
        · exact ⟨a, b, c, List.mem_cons_self _ _, List.mem_cons_self _ _,
            List.mem_cons_self _ _, rfl⟩
        · rcases ih htail with ⟨a', b', c', ha, hb, hc, hd⟩
          exact ⟨a', b', c', List.mem_cons_of_mem _ ha, List.mem_cons_of_mem _ hb,
            List.mem_cons_of_mem _ hc, hd⟩

theorem mapE_ok_mem {f : α → Except PyError β} :
    ∀ {as : List α} {bs : List β}, mapE f as = .ok bs →
      ∀ b ∈ bs, ∃ a ∈ as, f a = .ok b := by
  intro as
  induction as with
  | nil =>
    intro bs h b hb
    simp only [mapE] at h
    cases h
    cases hb
  | cons a as' ih =>
    intro bs h b hb
    simp only [mapE] at h
    cases hfa : f a with
    | error e => rw [hfa] at h; cases h
    | ok b0 =>
      rw [hfa] at h
      cases hrest : mapE f as' with
      | error e => rw [hrest] at h; cases h
      | ok bs0 =>
        rw [hrest] at h
        simp only [Except.bind, Except.map] at h
        cases h
        rcases List.mem_cons.mp hb with rfl | htail
        · exact ⟨a, List.mem_cons_self _ _, hfa⟩
        · rcases ih hrest b htail with ⟨a', ha', hfa'⟩
          exact ⟨a', List.mem_cons_of_mem _ ha', hfa'⟩

/-- Every row of a successful recomputing transform owes its block-column
group to a block-type grid produced by get_block_types on the nonempty
foreground features of some image of the batch. -/
theorem transform_row_blockCols {P : SegfreeProfiler} {imgs : List Img2} {row : ProfileRow}
    (hrow : row ∈ okRows (transformSingle P imgs none)) :
    ∃ (f : List ℚ → Nat) (cols : Option (List Int)) (gh gw : Nat)
      (bf : List (Nat × Hist Int)) (bl : List Int),
      P.km_block = some f ∧
      bf ≠ [] ∧
      get_block_types bf (some f) cols gh gw = .ok bl ∧
      row.blockCols =
        (reindexFill (get_block_counts bl) (rangeInt (P.n_block_types + 1))).map
          fun p => ("block-" ++ toString p.1, p.2) := by
  unfold transformSingle at hrow
  cases hts : P.tile_size with
  | none =>
    rw [hts] at hrow
    simp [okRows] at hrow
  | some twp =>
    obtain ⟨th, tw⟩ := twp
    rw [hts] at hrow
    dsimp only at hrow
    cases htl : tileImages2 imgs th tw with
    | error e =>
      rw [htl] at hrow
      simp [okRows, Except.bind] at hrow
    | ok tiles =>
      rw [htl] at hrow
      simp only [Except.bind] at hrow
      cases hbs : computeBS P tiles ((imgs.headD defaultImg2).H / th)
          ((imgs.headD defaultImg2).W / tw) with
      | error e =>
        rw [hbs] at hrow
        simp [okRows] at hrow
      | ok bs =>
        rw [hbs] at hrow
        cases hkms : P.km_supblock with
        | none =>
          rw [hkms] at hrow
          simp [okRows] at hrow
        | some kmS =>
          rw [hkms] at hrow
          simp only [okRows] at hrow
          rcases mem_zip3With hrow with ⟨s, b, p, _, hb, _, hrowe⟩
          rcases List.mem_map.mp hb with ⟨bl, hbl, hbe⟩
          unfold computeBS at hbs
          cases hbfs : mapE get_blockfeats tiles with
          | error e => rw [hbfs] at hbs; cases hbs
          | ok bfs =>
            rw [hbfs] at hbs
            simp only [Except.bind] at hbs
            cases hbls : mapE (fun bf => get_block_types bf P.km_block P.pixel_types
                ((imgs.headD defaultImg2).H / th) ((imgs.headD defaultImg2).W / tw)) bfs with
            | error e => rw [hbls] at hbs; cases hbs
            | ok bls =>
              rw [hbls] at hbs
              simp only [Except.bind] at hbs
              cases hsbs : mapE (fun bl => get_supblocks bl ((imgs.headD defaultImg2).H / th)
                  ((imgs.headD defaultImg2).W / tw) 3) bls with
              | error e =>
                rw [hsbs] at hbs
                simp at hbs
              | ok sbs =>
                rw [hsbs] at hbs
                dsimp only at hbs
                cases hbs
                rcases mapE_ok_mem hbls bl hbl with ⟨bf, hbf, hgbt⟩
                cases hkmb : P.km_block with
                | none =>
                  rw [hkmb] at hgbt
                  cases hgbt
                | some f =>
                  rw [hkmb] at hgbt
                  rcases mapE_ok_mem hbfs bf hbf with ⟨ts, _, hts2⟩
                  refine ⟨f, P.pixel_types, (imgs.headD defaultImg2).H / th,
                    (imgs.headD defaultImg2).W / tw, bf, bl, rfl, blockfeats_ne_nil hts2,
                    hgbt, ?_⟩
                  rw [hrowe]
                  rw [← hbe]

/-- Claim C1 (amended): every profile row of a successful single-channel
transform has block-type columns exactly over the labels 0..n_block_types
(that is n_block_types + 1 columns, the background label 0 included), and
their values sum to exactly 1. -/
theorem c1_block_columns (P : SegfreeProfiler) (imgs : List Img2) (k : Nat)
    (hk : P.n_block_types = k)
    (hkm : ∀ f, P.km_block = some f → ∀ x, f x < k)
    (row : ProfileRow) (hrow : row ∈ okRows (transformSingle P imgs none)) :
    row.blockCols.map Prod.fst =
      (rangeInt (k + 1)).map (fun c => "block-" ++ toString c) ∧
    (row.blockCols.map Prod.snd).sum = 1 := by
  rcases transform_row_blockCols hrow with ⟨f, cols, gh, gw, bf, bl, hkmb, hbfne, hgbt, hbe⟩
  rw [hbe, hk]
  have hbound := get_block_types_values hgbt (hkm f hkmb)
  have hblne := get_block_types_pos hgbt hbfne
  have hsub : ∀ x ∈ (get_block_counts bl).map Prod.fst, x ∈ rangeInt (k + 1) := by
    intro x hx
    have hxl : x ∈ bl := mem_keys_get_block_counts.mp hx
    rcases hbound x hxl with ⟨h0, hlt⟩
    exact mem_rangeInt_of h0 (by exact_mod_cast hlt)
  constructor
  · rw [List.map_map]
    unfold reindexFill
    rw [List.map_map]
    rfl
  · rw [List.map_map]
    have he : (Prod.snd ∘ fun p : Int × ℚ => ("block-" ++ toString p.1, p.2)) =
        Prod.snd := rfl
    rw [he, reindexFill_sum (get_block_counts bl) (rangeInt (k + 1))
      (keys_get_block_counts_nodup bl) (rangeInt_nodup (k + 1)) hsub]
    exact get_block_counts_sum bl hblne

unseal Rat.mul Rat.inv Rat.add Rat.sub Rat.ofScientific in
/-- Witness for C1 (amended) on the fitted checkerboard profiler: its first
profile row has block columns block-0, block-1, block-2 summing to 1. -/
theorem c1_block_columns_witness :
    (fittedP1.n_block_types = 2 ∧
      ((okRows (transformSingle fittedP1 [imgA] none)).headD defRow) ∈
        okRows (transformSingle fittedP1 [imgA] none)) ∧
    (((okRows (transformSingle fittedP1 [imgA] none)).headD defRow).blockCols.map Prod.fst =
      (rangeInt (2 + 1)).map (fun c => "block-" ++ toString c) ∧
      ((((okRows (transformSingle fittedP1 [imgA] none)).headD defRow).blockCols.map
        Prod.snd).sum = 1)) := by
  refine ⟨⟨by decide, by decide⟩, ?_⟩
  refine c1_block_columns fittedP1 [imgA] 2 (by decide) ?_ _ (by decide)
  intro f hf x
  have he : fittedP1.km_block = some (fun _ => 0) := rfl
  rw [he] at hf
  cases hf
  exact Nat.zero_lt_two

/-- Split a list into count consecutive chunks of size sz (numpy
reshape(-1, ...) grouping; callers check divisibility first). -/
def chunkAux (sz : Nat) : Nat → List α → List (List α)
  | 0, _ => []
  | k + 1, l => l.take sz :: chunkAux sz k (l.drop sz)

/-- Deterministic stand-in for numpy's seeded global Mersenne Twister.  Only
two facts about np.random are used by the code under analysis: np.random.seed
makes the subsequent draws a function of the seed alone, and
np.random.choice(range(n), size) yields indices below n (raising ValueError
when the range is empty). -/
def npNext (s i : Nat) : Nat := (s + 1) * 2654435761 + i * 40503 + 12345

/-- np.random.choice(range(n), size=size) after np.random.seed put the
global state at `state`: `size` indices below n, sampled with replacement. -/
def npChoice (state n size : Nat) : Except PyError (List Nat) :=
  if n = 0 then .error .valueError
  else .ok ((List.range size).map fun i => npNext state i % n)

/-- The global numpy RNG state after the draw. -/
def npAdvance (state size : Nat) : Nat := npNext state size

/-- _fit_multichannel(imgs, n_init, random_state).  np.random.seed(random_state)
overwrites the global RNG state (the parameter rng), which is therefore dead:
the subsequent choice depends on the seed only.  Returns the updated profiler,
the block-type grids and superblock histograms reused by the transform=True
path, and the advanced RNG state. -/
def fitMulti (ext : Ext) (P : SegfreeProfiler) (imgs : List Img3)
    (nInit seed rng : Nat) :
    Except PyError
      (SegfreeProfiler × (List (List Int) × List (List (Hist Int))) × Nat) :=
  match P.tile_size with
  | none => .error .typeError
  | some (th, tw) =>
    (tileImages3 imgs th tw).bind fun tiles =>
      let Xtrain := tiles.flatMap flatten_tiles
      let pca := ext.pcaFit Xtrain P.n_components seed
      let blockdf := Xtrain.map pca
      let rngS := seed
      (npChoice rngS blockdf.length P.n_subset).bind fun subset =>
        let kmB := ext.kmFit (subset.map fun i => blockdf.getD i [])
          P.n_block_types nInit seed
        let i0 := imgs.headD defaultImg3
        let gh := i0.H / th
        let gw := i0.W / tw
        let preds := blockdf.map fun v => Int.ofNat (kmB v)
        if gh * gw = 0 ∨ preds.length % (gh * gw) ≠ 0 then .error .valueError
        else
          let img_blocked := chunkAux (gh * gw) (preds.length / (gh * gw)) preds
          (mapE (fun g => get_color_supblocks g gh gw 3) img_blocked).bind fun supblocks =>
            let supHists := supblocks.flatMap id
            let supCols := unionKeys supHists
            let supdf := supHists.map fun h => supCols.map (lookupQ h)
            let kmS := ext.kmFit supdf P.n_supblock_types nInit seed
            let Pfit := { P with pca := some pca,
                                 km_block := some kmB,
                                 km_supblock := some kmS }
            .ok (Pfit, (img_blocked, supblocks), npAdvance rngS P.n_subset)

/-- The recomputation branch of _transform_multichannel (supblocks is None):
predict block labels for every tile, reshape into per-image grids and take
the sliding-window histograms. -/
def computeBSM (P : SegfreeProfiler) (blockdf : List (List ℚ)) (gh gw : Nat) :
    Except PyError (List (List Int) × List (List (Hist Int))) :=
  match P.km_block with
  | none => .error .attributeError
  | some kmB =>
    let preds := blockdf.map fun v => Int.ofNat (kmB v)
    if gh * gw = 0 ∨ preds.length % (gh * gw) ≠ 0 then .error .valueError
    else
      let img_blocked := chunkAux (gh * gw) (preds.length / (gh * gw)) preds
      (mapE (fun g => get_color_supblocks g gh gw 3) img_blocked).map
        fun supblocks => (img_blocked, supblocks)

/-- _transform_multichannel(imgs, img_blocked, supblocks): mean projected
components per image; block-type histogram reindexed to
range(n_block_types); superblock-type histogram of the predicted labels
reindexed to range(n_supblock_types); all renamed with label + 1. -/
def transformMulti (P : SegfreeProfiler) (imgs : List Img3)
    (bsOpt : Option (List (List Int) × List (List (Hist Int)))) :
    Except PyError (List ProfileRow) :=
  match P.tile_size with
  | none => .error .typeError
  | some (th, tw) =>
    (tileImages3 imgs th tw).bind fun tiles =>
      let Xtest := tiles.flatMap flatten_tiles
      match P.pca with
      | none => .error .attributeError
      | some pca =>
        let blockdf := Xtest.map pca
        if ¬ blockdf.all (fun row => row.length == P.n_components) then .error .valueError
        else
          let t0 := (tiles.headD []).length
          if blockdf.length ≠ imgs.length * t0 then .error .valueError
          else
            let groups := chunkAux t0 imgs.length blockdf
            let pcRows := groups.map fun g =>
              (List.range P.n_components).map fun j =>
                ("PC" ++ toString (j + 1), (g.map fun row => row.getD j 0).sum / (t0 : ℚ))
            (Except.bind
              (match bsOpt with
               | some bs => Except.ok bs
               | none =>
                 computeBSM P blockdf ((imgs.headD defaultImg3).H / th)
                   ((imgs.headD defaultImg3).W / tw)) fun bs =>
              match P.km_supblock with
              | none => .error .attributeError
              | some kmS =>
                let blockRows := bs.1.map fun bl =>
                  (reindexFill (get_block_counts bl) (rangeInt P.n_block_types)).map
                    fun p => ("block-" ++ toString (p.1 + 1), p.2)
                let supRows := bs.2.map fun sbf =>
                  (reindexFill
                    (get_block_counts (sbf.map fun h =>
                      Int.ofNat (kmS ((reindexFill h (rangeInt P.n_block_types)).map Prod.snd))))
                    (rangeInt P.n_supblock_types)).map
                    fun p => ("superblock-" ++ toString (p.1 + 1), p.2)
                .ok (zip3With ProfileRow.mk supRows blockRows pcRows))

/-- SegfreeProfiler.fit: dispatch on imgs[0].ndim.  A rank outside {2,3}
selects no branch: fit silently returns self unchanged.  The returned triple
is (profiler, the fit-time intermediates when a branch ran, the global RNG
state after the call). -/
def topFit (ext : Ext) (P : SegfreeProfiler) (imgs : List PyImg)
    (nInit seed rng : Nat) :
    Except PyError
      (SegfreeProfiler × Option (List (List Int) × List (List (Hist Int))) × Nat) :=
  match imgs with
  | [] => .error .indexError
  | i0 :: _ =>
    match i0 with
    | .im2 _ => (mapE asImg2 imgs).bind fun is =>
        (fitSingle ext P is nInit seed).map fun r => (r.1, some r.2, rng)
    | .im3 _ => (mapE asImg3 imgs).bind fun is =>
        (fitMulti ext P is nInit seed rng).map fun r => (r.1, some r.2.1, r.2.2)
    | .imOther _ => .ok (P, none, rng)

/-- SegfreeProfiler.transform: dispatch on imgs[0].ndim; a rank outside
{2,3} selects no branch and the method returns None. -/
def topTransform (P : SegfreeProfiler) (imgs : List PyImg) :
    Except PyError (Option (List ProfileRow)) :=
  match imgs with
  | [] => .error .indexError
  | i0 :: _ =>
    match i0 with
    | .im2 _ => (mapE asImg2 imgs).bind fun is => (transformSingle P is none).map some
    | .im3 _ => (mapE asImg3 imgs).bind fun is => (transformMulti P is none).map some
    | .imOther _ => .ok none

/-- SegfreeProfiler.fit_transform: the fit paths with transform=True, which
hand the already-computed block grids and superblock histograms to the
transform stage instead of recomputing them; a rank outside {2,3} returns
None. -/
def topFitTransform (ext : Ext) (P : SegfreeProfiler) (imgs : List PyImg)
    (nInit seed rng : Nat) : Except PyError (Option (List ProfileRow)) :=
  match imgs with
  | [] => .error .indexError
  | i0 :: _ =>
    match i0 with
    | .im2 _ => (mapE asImg2 imgs).bind fun is =>
        (fitSingle ext P is nInit seed).bind fun r =>
          (transformSingle r.1 is (some r.2)).map some
    | .im3 _ => (mapE asImg3 imgs).bind fun is =>
        (fitMulti ext P is nInit seed rng).bind fun r =>
          (transformMulti r.1 is (some r.2.1)).map some
    | .imOther _ => .ok none

theorem except_bind_ok_inv {α β : Type} {e : Except PyError α}
    {f : α → Except PyError β} {b : β} (h : e.bind f = .ok b) :
    ∃ a, e = .ok a ∧ f a = .ok b := by
  cases e with
  | error err => simp [Except.bind] at h
  | ok a => exact ⟨a, rfl, h⟩

theorem computeBS_of_parts {P : SegfreeProfiler} {tiles : List (List Tile2)}
    {bfs : List (List (Nat × Hist Int))} {bls : List (List Int)}
    {sbs : List (List (Hist Int))} {gh gw : Nat} {kmB : List ℚ → Nat}
    {pixelTypes : List Int}
    (hkm : P.km_block = some kmB) (hpt : P.pixel_types = some pixelTypes)
    (hbfs : mapE get_blockfeats tiles = .ok bfs)
    (hbls : mapE (fun bf => get_block_types bf (some kmB) (some pixelTypes) gh gw) bfs = .ok bls)
    (hsbs : mapE (fun bl => get_supblocks bl gh gw 3) bls = .ok sbs) :
    computeBS P tiles gh gw = .ok (bls, sbs) := by
  unfold computeBS
  rw [hbfs]
  simp only [Except.bind]
  rw [hkm, hpt, hbls]
  simp only [Except.bind]
  rw [hsbs]

theorem transformSingle_some_eq_none {P : SegfreeProfiler} {imgs : List Img2}
    {bs : List (List Int) × List (List (Hist Int))}
    (h : ∀ th tw tiles, P.tile_size = some (th, tw) → tileImages2 imgs th tw = .ok tiles →
      computeBS P tiles ((imgs.headD defaultImg2).H / th)
        ((imgs.headD defaultImg2).W / tw) = .ok bs) :
    transformSingle P imgs (some bs) = transformSingle P imgs none := by
  unfold transformSingle
  cases hts : P.tile_size with
  | none => rfl
  | some twp =>
    obtain ⟨th, tw⟩ := twp
    dsimp only
    cases htl : tileImages2 imgs th tw with
    | error e => rfl
    | ok tiles =>
      simp only [Except.bind]
      rw [h th tw tiles hts htl]

/-- The transform stage gives the same result whether it reuses the block
grids and superblock histograms computed during a successful single-channel
fit or recomputes them from the fitted state (the recomputation runs the
identical functions with the identical fitted vocabularies). -/
theorem fitSingle_reuse {ext : Ext} {P : SegfreeProfiler} {imgs : List Img2}
    {nInit seed : Nat} {P' : SegfreeProfiler}
    {bs : List (List Int) × List (List (Hist Int))}
    (h : fitSingle ext P imgs nInit seed = .ok (P', bs)) :
    transformSingle P' imgs (some bs) = transformSingle P' imgs none := by
  unfold fitSingle at h
  cases hts : P.tile_size with
  | none => rw [hts] at h; cases h
  | some twp =>
    obtain ⟨th, tw⟩ := twp
    rw [hts] at h
    dsimp only at h
    obtain ⟨tiles, htl, h2⟩ := except_bind_ok_inv h
    try dsimp only at h2
    obtain ⟨bfs, hbfs, h3⟩ := except_bind_ok_inv h2
    try dsimp only at h3
    obtain ⟨bls, hbls, h4⟩ := except_bind_ok_inv h3
    try dsimp only at h4
    obtain ⟨sbs, hsbs, h5⟩ := except_bind_ok_inv h4
    try dsimp only at h5
    have h6 := Except.ok.inj h5
    cases h6
    apply transformSingle_some_eq_none
    intro th' tw' tiles' hts' htl'
    dsimp only at hts'
    have hth : th = th' := congrArg Prod.fst (Option.some.inj hts')
    have htw : tw = tw' := congrArg Prod.snd (Option.some.inj hts')
    subst hth
    subst htw
    have htiles : tiles' = tiles := by
      rw [htl] at htl'
      exact (Except.ok.inj htl').symm
    subst htiles
    exact computeBS_of_parts rfl rfl hbfs hbls hsbs

theorem transformMulti_some_eq_none {P : SegfreeProfiler} {imgs : List Img3}
    {bs : List (List Int) × List (List (Hist Int))}
    (h : ∀ th tw tiles pca, P.tile_size = some (th, tw) →
      tileImages3 imgs th tw = .ok tiles → P.pca = some pca →
      computeBSM P ((tiles.flatMap flatten_tiles).map pca)
        ((imgs.headD defaultImg3).H / th) ((imgs.headD defaultImg3).W / tw) = .ok bs) :
    transformMulti P imgs (some bs) = transformMulti P imgs none := by
  unfold transformMulti
  cases hts : P.tile_size with
  | none => rfl
  | some twp =>
    obtain ⟨th, tw⟩ := twp
    dsimp only
    cases htl : tileImages3 imgs th tw with
    | error e => rfl
    | ok tiles =>
      simp only [Except.bind]
      cases hpca : P.pca with
      | none => rfl
      | some pca =>
        dsimp only
        by_cases hw : ¬ ((tiles.flatMap flatten_tiles).map pca).all
            (fun row => row.length == P.n_components)
        · rw [if_pos hw, if_pos hw]
        · rw [if_neg hw, if_neg hw]
          by_cases hlen : ((tiles.flatMap flatten_tiles).map pca).length ≠
              imgs.length * (tiles.headD []).length
          · rw [if_pos hlen, if_pos hlen]
          · rw [if_neg hlen, if_neg hlen]
            rw [h th tw tiles pca hts htl hpca]

/-- The multichannel transform gives the same result whether it reuses the
grids and superblock histograms of a successful fit or recomputes them from
the fitted state. -/
theorem fitMulti_reuse {ext : Ext} {P : SegfreeProfiler} {imgs : List Img3}
    {nInit seed rng : Nat} {P' : SegfreeProfiler}
    {bs : List (List Int) × List (List (Hist Int))} {rngOut : Nat}
    (h : fitMulti ext P imgs nInit seed rng = .ok (P', bs, rngOut)) :
    transformMulti P' imgs (some bs) = transformMulti P' imgs none := by
  unfold fitMulti at h
  cases hts : P.tile_size with
  | none => rw [hts] at h; cases h
  | some twp =>
    obtain ⟨th, tw⟩ := twp
    rw [hts] at h
    dsimp only at h
    obtain ⟨tiles, htl, h2⟩ := except_bind_ok_inv h
    try dsimp only at h2
    obtain ⟨subset, hch, h3⟩ := except_bind_ok_inv h2
    try dsimp only at h3
    split at h3
    · cases h3
    next hcond =>
      obtain ⟨supblocks, hsup, h4⟩ := except_bind_ok_inv h3
      try dsimp only at h4
      have h5 := Except.ok.inj h4
      cases h5
      apply transformMulti_some_eq_none
      intro th' tw' tiles' pca' hts' htl' hpca'
      dsimp only at hts' hpca'
      have hth : th = th' := congrArg Prod.fst (Option.some.inj hts')
      have htw : tw = tw' := congrArg Prod.snd (Option.some.inj hts')
      subst hth
      subst htw
      have htiles : tiles' = tiles := by
        rw [htl] at htl'
        exact (Except.ok.inj htl').symm
      subst htiles
      have hpca2 := Option.some.inj hpca'
      subst hpca2
      unfold computeBSM
      dsimp only
      rw [if_neg hcond]
      rw [hsup]
      rfl

/-- Claim C3: fit_transform equals fit followed by transform on the same
images, for every batch (rank-2, rank-3 or other), every configuration and
every state of the external estimators and of the global RNG. -/
theorem c3_fit_transform_equiv (ext : Ext) (P : SegfreeProfiler) (imgs : List PyImg)
    (nInit seed rng : Nat) :
    topFitTransform ext P imgs nInit seed rng =
      (topFit ext P imgs nInit seed rng).bind fun r => topTransform r.1 imgs := by
  cases imgs with
  | nil => rfl
  | cons i0 rest =>
    cases i0 with
    | imOther r => rfl
    | im2 i =>
      unfold topFitTransform topFit topTransform
      dsimp only
      cases hc : mapE asImg2 (PyImg.im2 i :: rest) with
      | error e => rfl
      | ok is =>
        simp only [Except.bind]
        cases hf : fitSingle ext P is nInit seed with
        | error e => rfl
        | ok r =>
          obtain ⟨P', bs⟩ := r
          simp only [Except.bind, Except.map]
          rw [fitSingle_reuse hf]
    | im3 i =>
      unfold topFitTransform topFit topTransform
      dsimp only
      cases hc : mapE asImg3 (PyImg.im3 i :: rest) with
      | error e => rfl
      | ok is =>
        simp only [Except.bind]
        cases hf : fitMulti ext P is nInit seed rng with
        | error e => rfl
        | ok r =>
          obtain ⟨P', bs, rngOut⟩ := r
          simp only [Except.bind, Except.map]
          rw [fitMulti_reuse hf]

theorem except_map_map {α β γ : Type} (f : α → β) (g : β → γ) (e : Except PyError α) :
    (e.map f).map g = e.map (g ∘ f) := by
  cases e <;> rfl

theorem topFit_rng_irrelevant (ext : Ext) (P : SegfreeProfiler) (imgs : List PyImg)
    (nInit seed rng1 rng2 : Nat) :
    (topFit ext P imgs nInit seed rng1).map (fun r => (r.1, r.2.1)) =
      (topFit ext P imgs nInit seed rng2).map (fun r => (r.1, r.2.1)) := by
  cases imgs with
  | nil => rfl
  | cons i0 rest =>
    cases i0 with
    | imOther r => rfl
    | im2 i =>
      unfold topFit
      dsimp only
      cases hc : mapE asImg2 (PyImg.im2 i :: rest) with
      | error e => rfl
      | ok is =>
        simp only [Except.bind]
        cases hf : fitSingle ext P is nInit seed with
        | error e => rfl
        | ok r => rfl
    | im3 i => rfl

/-- Claim C5: fitting twice with the same images, n_init and random_state
yields identical fitted states and identical block/superblock assignment
intermediates, whatever the incoming global RNG state of each call (only
the returned RNG state may differ); consequently the two fitted states give
identical profiles on any transform batch. -/
theorem c5_fit_deterministic (ext : Ext) (P : SegfreeProfiler) (imgs : List PyImg)
    (nInit seed rng1 rng2 : Nat) :
    (topFit ext P imgs nInit seed rng1).map (fun r => (r.1, r.2.1)) =
      (topFit ext P imgs nInit seed rng2).map (fun r => (r.1, r.2.1)) ∧
    ∀ imgsT : List PyImg,
      (topFit ext P imgs nInit seed rng1).map (fun r => topTransform r.1 imgsT) =
        (topFit ext P imgs nInit seed rng2).map (fun r => topTransform r.1 imgsT) := by
  refine ⟨topFit_rng_irrelevant ext P imgs nInit seed rng1 rng2, ?_⟩
  intro imgsT
  have h := topFit_rng_irrelevant ext P imgs nInit seed rng1 rng2
  have e1 := except_map_map
    (fun r : SegfreeProfiler × Option (List (List Int) × List (List (Hist Int))) × Nat =>
      (r.1, r.2.1))
    (fun pr => topTransform pr.1 imgsT) (topFit ext P imgs nInit seed rng1)
  have e2 := except_map_map
    (fun r : SegfreeProfiler × Option (List (List Int) × List (List (Hist Int))) × Nat =>
      (r.1, r.2.1))
    (fun pr => topTransform pr.1 imgsT) (topFit ext P imgs nInit seed rng2)
  exact e1.symm.trans (by rw [h]; exact e2)

theorem mapE_ok_length {f : α → Except PyError β} :
    ∀ {as : List α} {bs : List β}, mapE f as = .ok bs → bs.length = as.length := by
  intro as
  induction as with
  | nil =>
    intro bs h
    simp only [mapE] at h
    cases h
    rfl
  | cons a t ih =>
    intro bs h
    simp only [mapE] at h
    cases hfa : f a with
    | error e => rw [hfa] at h; cases h
    | ok b0 =>
      rw [hfa] at h
      cases hrest : mapE f t with
      | error e => rw [hrest] at h; cases h
      | ok bs0 =>
        rw [hrest] at h
        simp only [Except.bind, Except.map] at h
        cases h
        simp [ih hrest]

theorem tileImages2_ok_length {is : List Img2} {th tw : Nat} {tiles : List (List Tile2)}
    (h : tileImages2 is th tw = .ok tiles) : tiles.length = is.length := by
  cases is with
  | nil => cases h
  | cons i0 rest =>
    unfold tileImages2 at h
    dsimp only at h
    by_cases hz : th = 0 ∨ tw = 0
    · rw [if_pos hz] at h; cases h
    · rw [if_neg hz] at h
      have hlen := mapE_ok_length h
      rw [hlen]
      by_cases h1 : i0.H % th ≠ 0 <;> by_cases h2 : i0.W % tw ≠ 0 <;>
        simp [h1, h2]

/-- With no fitted block clusterer the single-channel transform can never
produce a table: km_block is None, and get_block_types calls None.predict. -/
theorem transformSingle_unfitted {P : SegfreeProfiler} {is : List Img2}
    {rows : List ProfileRow} (hkm : P.km_block = none) (hne : is ≠ []) :
    transformSingle P is none ≠ .ok rows := by
  unfold transformSingle
  cases hts : P.tile_size with
  | none => simp
  | some twp =>
    obtain ⟨th, tw⟩ := twp
    dsimp only
    cases htl : tileImages2 is th tw with
    | error e => simp [Except.bind]
    | ok tiles =>
      simp only [Except.bind]
      intro hok
      obtain ⟨bsv, hbsv, _⟩ := except_bind_ok_inv hok
      unfold computeBS at hbsv
      obtain ⟨bfs, hbfs, h3⟩ := except_bind_ok_inv hbsv
      obtain ⟨bls, hbls, _⟩ := except_bind_ok_inv h3
      have htne : tiles ≠ [] := by
        have hl := tileImages2_ok_length htl
        intro hnil
        rw [hnil] at hl
        cases is with
        | nil => exact hne rfl
        | cons a b => simp at hl
      have hbfsne : bfs ≠ [] := by
        have hl := mapE_ok_length hbfs
        intro hnil
        rw [hnil] at hl
        exact htne (List.length_eq_zero.mp hl.symm)
      cases bfs with
      | nil => exact hbfsne rfl
      | cons b rest =>
        rw [hkm] at hbls
        simp [mapE, get_block_types, Except.bind] at hbls

/-- With no fitted PCA the multichannel transform can never produce a
table: pca is None, and None.transform raises. -/
theorem transformMulti_unfitted {P : SegfreeProfiler} {is : List Img3}
    {rows : List ProfileRow} (hpca : P.pca = none) :
    transformMulti P is none ≠ .ok rows := by
  unfold transformMulti
  cases hts : P.tile_size with
  | none => simp
  | some twp =>
    obtain ⟨th, tw⟩ := twp
    dsimp only
    cases htl : tileImages3 is th tw with
    | error e => simp [Except.bind]
    | ok tiles =>
      simp only [Except.bind]
      rw [hpca]
      simp

unseal Rat.mul Rat.inv Rat.add Rat.sub Rat.ofScientific in
/-- Counterexample to C8 as stated: transform on the unfitted profiler P0
does fail, but with AttributeError (None.predict in get_block_types), not
with a NotFittedError. -/
theorem c8_counterexample :
    topTransform P0 [PyImg.im2 imgA] = .error .attributeError ∧
    PyError.attributeError ≠ PyError.notFittedError :=
  ⟨rfl, by decide⟩

/-- Claim C8 (amended): calling transform before any successful fit never
produces a profile table.  For rank-2 and rank-3 batches it raises an error
(AttributeError through the None estimators once tiling succeeded, or the
earlier TypeError/ValueError of tiling), and for other ranks transform
falls through and returns None. -/
theorem c8_no_profile (P : SegfreeProfiler) (imgs : List PyImg) (t : List ProfileRow)
    (hkm : P.km_block = none) (hpca : P.pca = none) :
    topTransform P imgs ≠ .ok (some t) := by
  cases imgs with
  | nil => simp [topTransform]
  | cons i0 rest =>
    cases i0 with
    | imOther r => simp [topTransform]
    | im2 i =>
      unfold topTransform
      dsimp only
      cases hc : mapE asImg2 (PyImg.im2 i :: rest) with
      | error e => simp [Except.bind]
      | ok is =>
        simp only [Except.bind]
        intro hok
        have hisne : is ≠ [] := by
          have hl := mapE_ok_length hc
          intro hnil
          rw [hnil] at hl
          simp at hl
        cases hresult : transformSingle P is none with
        | error e => rw [hresult] at hok; simp [Except.map] at hok
        | ok rows => exact transformSingle_unfitted hkm hisne hresult
    | im3 i =>
      unfold topTransform
      dsimp only
      cases hc : mapE asImg3 (PyImg.im3 i :: rest) with
      | error e => simp [Except.bind]
      | ok is =>
        simp only [Except.bind]
        intro hok
        cases hresult : transformMulti P is none with
        | error e => rw [hresult] at hok; simp [Except.map] at hok
        | ok rows => exact transformMulti_unfitted hpca hresult

/-- Witness for C8 (amended) on the concrete unfitted profiler P0. -/
theorem c8_no_profile_witness :
    (P0.km_block = none ∧ P0.pca = none) ∧
    topTransform P0 [PyImg.im2 imgA] ≠ .ok (some []) :=
  ⟨⟨rfl, rfl⟩, c8_no_profile P0 [PyImg.im2 imgA] [] rfl rfl⟩

end Bioimg
